import Mathlib

/-!
Verification of the football-archive data-normalization pipeline.

Each namespace below is a shallow embedding of one source module of the
repository (CSV reader, field normalizers, name-disambiguation store, club
resolver, snapshot deduplicator, ranking engine).  Strings are Lean `String`
values manipulated through their character lists; JavaScript `Map` objects are
embedded as insertion-ordered association lists.  File I/O and the spreadsheet
parser (papaparse) are outside the embedding: every load function is modelled
from the point where the parsed rows are in memory.
-/

namespace FA

/-! ### JavaScript string primitives

The source manipulates strings with `trim`, `toUpperCase`, regex replaces and
lexicographic comparison.  These are embedded here on `List Char` / `String`.
`jsWhite` is the JavaScript `\s` character class restricted to the code points
the repository's data can contain.
-/

def jsWhite (c : Char) : Bool :=
  c == ' ' || c == '\t' || c == '\n' || c == '\r' ||
  c.toNat == 0x0b || c.toNat == 0x0c || c.toNat == 0xa0 ||
  c.toNat == 0x1680 || (0x2000 ≤ c.toNat && c.toNat ≤ 0x200a) ||
  c.toNat == 0x2028 || c.toNat == 0x2029 || c.toNat == 0x202f ||
  c.toNat == 0x205f || c.toNat == 0x3000 || c.toNat == 0xfeff

def trimList (l : List Char) : List Char :=
  ((l.dropWhile jsWhite).reverse.dropWhile jsWhite).reverse

/-- JS `String.prototype.trim`. -/
def jsTrim (s : String) : String :=
  String.mk (trimList s.data)

def isDigitCh (c : Char) : Bool :=
  48 ≤ c.toNat && c.toNat ≤ 57

/-- ASCII upper-casing, the case mapping exercised by the repository data. -/
def upCh (c : Char) : Char :=
  if 97 ≤ c.toNat && c.toNat ≤ 122 then Char.ofNat (c.toNat - 32) else c

def lowCh (c : Char) : Char :=
  if 65 ≤ c.toNat && c.toNat ≤ 90 then Char.ofNat (c.toNat + 32) else c

def jsUpper (s : String) : String := String.mk (s.data.map upCh)

def jsLower (s : String) : String := String.mk (s.data.map lowCh)

/-- JS `<` on strings: lexicographic comparison of code units. -/
def ltList : List Char → List Char → Bool
  | [], [] => false
  | [], _ :: _ => true
  | _ :: _, [] => false
  | c :: cs, d :: ds =>
    if c.toNat < d.toNat then true
    else if d.toNat < c.toNat then false
    else ltList cs ds

def jsLt (a b : String) : Bool := ltList a.data b.data

/-- Numeric value of a digit string (`Number` on an all-digit match group). -/
def digitsToNat (l : List Char) : Nat :=
  l.foldl (fun n c => n * 10 + (c.toNat - 48)) 0

/-- JS `String(Number(g))` for a digit-only group `g`: drops leading zeros. -/
def numStr (l : List Char) : String := toString (digitsToNat l)

/-- JS `padStart(2, "0")`. -/
def pad2 (s : String) : String :=
  if s.length < 2 then "0" ++ s else s

/-- Collapse every run of `\s` characters to one ASCII space
(`replace(/\s+/g, " ")`); the flag records whether the previous character was
part of a whitespace run. -/
def collapseWsAux : Bool → List Char → List Char
  | _, [] => []
  | prevWs, c :: cs =>
    if jsWhite c then
      if prevWs then collapseWsAux true cs else ' ' :: collapseWsAux true cs
    else c :: collapseWsAux false cs

def collapseWs (l : List Char) : List Char := collapseWsAux false l

/-- JS `String.prototype.includes` (substring test). -/
def inclList : List Char → List Char → Bool
  | l, sub => decide (sub <+: l) || match l with
    | [] => false
    | _ :: cs => inclList cs sub

def jsIncludes (s sub : String) : Bool := inclList s.data sub.data

/-! ### Insertion-ordered association maps (the JS `Map`)

`Map.set` overwrites the value in place when the key is present and appends
otherwise; `Map.get` returns the value or nothing.  `values` is the list of
values in insertion order.
-/

def mset {β : Type} : List (String × β) → String → β → List (String × β)
  | [], k, v => [(k, v)]
  | (k', v') :: rest, k, v =>
    if k' = k then (k', v) :: rest else (k', v') :: mset rest k v

def mget {β : Type} : List (String × β) → String → Option β
  | [], _ => none
  | (k', v') :: rest, k => if k' = k then some v' else mget rest k

def mvalues {β : Type} (m : List (String × β)) : List β := m.map Prod.snd

end FA

namespace FA.MatchEvents

/-!
Embedding of `src/lib/matchEvents.ts` (the current revision, which counts
`GOAL` and `PK` event types via `isGoalEvent`).  `loadMatchEvents` reads a CSV
file; the aggregation functions are embedded over an explicit event list.
-/

structure MatchEvent where
  competition : String
  edition : String
  match_id : String
  event_id : String
  event_type : String
  team : String
  player : String
  assist : String
  minute : String
  period : String
  round : String
  vs : String
  note : String
deriving DecidableEq, Repr

def norm (v : String) : String := FA.jsTrim v

def upper (v : String) : String := FA.jsUpper (norm v)

def isShootout (e : MatchEvent) : Bool :=
  let p := upper e.period
  let n := norm e.note
  p == "PSO" || p == "PKSO" || FA.jsIncludes n "PK戦"

def isGoalEvent (e : MatchEvent) : Bool :=
  let t := upper e.event_type
  t == "GOAL" || t == "PK"

structure GoalRankRow where
  player : String
  team : String
  goals : Nat
deriving DecidableEq, Repr

structure AssistRankRow where
  player : String
  team : String
  assists : Nat
deriving DecidableEq, Repr

/-- Filter of the `getGoalRanking` loop: the event survives every `continue`. -/
def goalRelevant (competition edition : String) (e : MatchEvent) : Bool :=
  norm e.competition == competition && norm e.edition == edition &&
  !isShootout e && isGoalEvent e && e.player ≠ "" && e.team ≠ ""

def goalKey (e : MatchEvent) : String := e.player ++ "__" ++ e.team

def goalStep (m : List (String × GoalRankRow)) (e : MatchEvent) :
    List (String × GoalRankRow) :=
  match FA.mget m (goalKey e) with
  | none => FA.mset m (goalKey e) ⟨e.player, e.team, 1⟩
  | some r => FA.mset m (goalKey e) ⟨r.player, r.team, r.goals + 1⟩

def goalAccum (competition edition : String) (events : List MatchEvent) :
    List (String × GoalRankRow) :=
  events.foldl
    (fun m e => if goalRelevant competition edition e then goalStep m e else m)
    []

/-- Comparator of `getGoalRanking`: `(a, b) => b.goals - a.goals`, i.e. `a`
sorts no later than `b` when `b.goals ≤ a.goals`. -/
def goalsGe (a b : GoalRankRow) : Prop := b.goals ≤ a.goals

instance : DecidableRel goalsGe := fun a b => Nat.decLe b.goals a.goals

instance : IsTotal GoalRankRow goalsGe := ⟨fun a b => Nat.le_total b.goals a.goals⟩

instance : IsTrans GoalRankRow goalsGe :=
  ⟨fun _ _ _ h h' => Nat.le_trans h' h⟩

def getGoalRanking (events : List MatchEvent) (competition edition : String) :
    List GoalRankRow :=
  (FA.mvalues (goalAccum competition edition events)).insertionSort goalsGe

/-- Filter of the `getAssistRanking` loop. -/
def assistRelevant (competition edition : String) (e : MatchEvent) : Bool :=
  norm e.competition == competition && norm e.edition == edition &&
  !isShootout e && isGoalEvent e && norm e.assist ≠ ""

def assistKey (e : MatchEvent) : String := norm e.assist ++ "__" ++ norm e.team

def assistStep (m : List (String × AssistRankRow)) (e : MatchEvent) :
    List (String × AssistRankRow) :=
  match FA.mget m (assistKey e) with
  | none => FA.mset m (assistKey e) ⟨norm e.assist, norm e.team, 1⟩
  | some r => FA.mset m (assistKey e) ⟨r.player, r.team, r.assists + 1⟩

def assistAccum (competition edition : String) (events : List MatchEvent) :
    List (String × AssistRankRow) :=
  events.foldl
    (fun m e =>
      if assistRelevant competition edition e then assistStep m e else m)
    []

def assistsGe (a b : AssistRankRow) : Prop := b.assists ≤ a.assists

instance : DecidableRel assistsGe := fun a b => Nat.decLe b.assists a.assists

def getAssistRanking (events : List MatchEvent) (competition edition : String) :
    List AssistRankRow :=
  (FA.mvalues (assistAccum competition edition events)).insertionSort assistsGe

structure PlayerGARow where
  player : String
  goals : Nat
  assists : Nat
  ga : Nat
deriving DecidableEq, Repr

structure EditionSubtotalRow where
  edition : String
  goals : Nat
  assists : Nat
  ga : Nat
deriving DecidableEq, Repr

/-- Filter of the `getTeamCareerGA` loop up to the `!p` check. -/
def careerRelevant (competition team : String) (e : MatchEvent) : Bool :=
  norm e.competition == competition && norm e.team == team &&
  !isShootout e && isGoalEvent e && norm e.player ≠ ""

/-- Body of the `getTeamCareerGA` loop: bump the scorer's goals, then, when
the assist field is non-empty, bump the assister's assists.  The `ga` field
stays 0 inside the map and is derived afterwards. -/
def careerStep (m : List (String × PlayerGARow)) (e : MatchEvent) :
    List (String × PlayerGARow) :=
  let p := norm e.player
  let m1 :=
    match FA.mget m p with
    | none => FA.mset m p ⟨p, 1, 0, 0⟩
    | some r => FA.mset m p ⟨r.player, r.goals + 1, r.assists, r.ga⟩
  let a := norm e.assist
  if a ≠ "" then
    match FA.mget m1 a with
    | none => FA.mset m1 a ⟨a, 0, 1, 0⟩
    | some r => FA.mset m1 a ⟨r.player, r.goals, r.assists + 1, r.ga⟩
  else m1

def careerAccum (competition team : String) (events : List MatchEvent) :
    List (String × PlayerGARow) :=
  events.foldl
    (fun m e => if careerRelevant competition team e then careerStep m e else m)
    []

/-- Comparator of `getTeamCareerGA`: goals desc, assists desc, then player
name (`localeCompare` modelled as code-point order). -/
def careerLe (a b : PlayerGARow) : Prop :=
  b.goals < a.goals ∨ (b.goals = a.goals ∧
    (b.assists < a.assists ∨ (b.assists = a.assists ∧
      FA.jsLt b.player a.player = false)))

instance : DecidableRel careerLe := fun _ _ => by
  unfold careerLe; infer_instance

def getTeamCareerGA (events : List MatchEvent) (competition team : String) :
    List PlayerGARow :=
  ((FA.mvalues (careerAccum competition team events)).map
    (fun r => ⟨r.player, r.goals, r.assists, r.goals + r.assists⟩)).insertionSort
    careerLe

/-- Filter of the `getTeamEditionSubtotals` loop. -/
def subtotalRelevant (competition team : String) (e : MatchEvent) : Bool :=
  norm e.competition == competition && norm e.team == team &&
  !isShootout e && isGoalEvent e && norm e.edition ≠ ""

def subtotalStep (m : List (String × (Nat × Nat))) (e : MatchEvent) :
    List (String × (Nat × Nat)) :=
  let ed := norm e.edition
  let cur := (FA.mget m ed).getD (0, 0)
  let bumped : Nat × Nat := (cur.1 + 1, cur.2)
  let final : Nat × Nat :=
    if norm e.assist ≠ "" then (bumped.1, bumped.2 + 1) else bumped
  FA.mset m ed final

def subtotalAccum (competition team : String) (events : List MatchEvent) :
    List (String × (Nat × Nat)) :=
  events.foldl
    (fun m e =>
      if subtotalRelevant competition team e then subtotalStep m e else m)
    []

/-- Comparator of `getTeamEditionSubtotals`: `Number(edition)` ascending,
modelled on the digit strings the edition column holds. -/
def editionLe (a b : EditionSubtotalRow) : Prop :=
  FA.digitsToNat a.edition.data ≤ FA.digitsToNat b.edition.data

instance : DecidableRel editionLe := fun _ _ => by
  unfold editionLe; infer_instance

def getTeamEditionSubtotals (events : List MatchEvent)
    (competition team : String) : List EditionSubtotalRow :=
  ((subtotalAccum competition team events).map
    (fun kv => ⟨kv.1, kv.2.1, kv.2.2, kv.2.1 + kv.2.2⟩)).insertionSort
    editionLe

/-- Embeds `addRank` (the 1,1,3 competition ranking).  A row is reduced to its
score, `Number(r[scoreKey] ?? 0)`; the output pairs each score with its rank.
`last` is the previous row's score, `i` the 1-based position. -/
def addRankGo (last : Option Int) (rank i : Nat) :
    List Int → List (Int × Nat)
  | [] => []
  | s :: rest =>
    if last = some s then
      (s, rank) :: addRankGo (some s) rank (i + 1) rest
    else
      (s, i + 1) :: addRankGo (some s) (i + 1) (i + 1) rest

def addRank (rows : List Int) : List (Int × Nat) :=
  addRankGo none 0 0 rows

end FA.MatchEvents

namespace FA.Callups

/-!
Embedding of the call-up loader (`loadCallups` / `pickLatestBySnapshot`).
`CallupRow` keeps the fields the deduplication logic reads; `loadCallups` is
modelled from the point where papaparse has produced the row list.
-/

structure CallupRow where
  competition : String
  edition : String
  confederation : String
  country : String
  name_en : String
  snapshot_date : String
deriving DecidableEq, Repr

/-- Anchored regex of `toKeyDate`: four digits, a slash-or-hyphen separator,
one or two digits, separator, one or two digits — with JS backtracking: the
one-or-two digit groups are greedy but shrink to one digit when the following
separator requires it; trailing input after the day group is ignored. -/
def ymdSep : List Char → Option (List Char × List Char × List Char)
  | a :: b :: c :: d :: rest =>
    if FA.isDigitCh a && FA.isDigitCh b && FA.isDigitCh c && FA.isDigitCh d then
      match rest with
      | s1 :: tail =>
        if s1 = '/' || s1 = '-' then
          match midGroup tail with
          | some (m, tail2) =>
            match dayGroup tail2 with
            | some dd => some ([a, b, c, d], m, dd)
            | none => none
          | none => none
        else none
      | [] => none
    else none
  | _ => none
where
  midGroup : List Char → Option (List Char × List Char)
    | d1 :: d2 :: s :: tail =>
      if FA.isDigitCh d1 then
        if FA.isDigitCh d2 && (s = '/' || s = '-') then some ([d1, d2], tail)
        else if d2 = '/' || d2 = '-' then some ([d1], s :: tail)
        else none
      else none
    | d1 :: s :: tail =>
      if FA.isDigitCh d1 && (s = '/' || s = '-') then some ([d1], tail)
      else none
    | _ => none
  dayGroup : List Char → Option (List Char)
    | d1 :: d2 :: _ =>
      if FA.isDigitCh d1 then
        if FA.isDigitCh d2 then some [d1, d2] else some [d1]
      else none
    | [d1] => if FA.isDigitCh d1 then some [d1] else none
    | [] => none

/-- One-or-two digit group with JS semantics for `(\d{1,2}).*?(\d{1,2})`
backtracking: greedy two digits unless no digit would remain for the next
group, in which case the group shrinks to one digit. -/
def grabMid : List Char → Option (List Char × List Char)
  | l =>
    match l.dropWhile (fun c => !FA.isDigitCh c) with
    | [] => none
    | d1 :: t =>
      match t with
      | d2 :: t2 =>
        if FA.isDigitCh d2 then
          if t2.any FA.isDigitCh then some ([d1, d2], t2) else some ([d1], t)
        else if t.any FA.isDigitCh then some ([d1], t) else none
      | [] => none

def grabLast (l : List Char) : Option (List Char) :=
  match l.dropWhile (fun c => !FA.isDigitCh c) with
  | [] => none
  | d1 :: t =>
    match t with
    | d2 :: _ => if FA.isDigitCh d2 then some [d1, d2] else some [d1]
    | [] => some [d1]

/-- Fallback regex `(\d{4}).*?(\d{1,2}).*?(\d{1,2})`: leftmost position with
four consecutive digits such that at least two digit characters follow. -/
def fbScan : List Char → Option (List Char × List Char × List Char)
  | [] => none
  | l@(_ :: rest) =>
    match l with
    | a :: b :: c :: d :: tail =>
      if FA.isDigitCh a && FA.isDigitCh b && FA.isDigitCh c && FA.isDigitCh d
      then
        match grabMid tail with
        | some (m, tail2) =>
          match grabLast tail2 with
          | some dd => some ([a, b, c, d], m, dd)
          | none => fbScan rest
        | none => fbScan rest
      else fbScan rest
    | _ => fbScan rest

/-- Embeds `toKeyDate` of `loadCallups`: normalized `YYYYMMDD` key, or `""`
when neither date pattern matches. -/
def toKeyDate (v : String) : String :=
  let s := FA.jsTrim v
  if s = "" then ""
  else
    match ymdSep s.data with
    | some (y, m, d) =>
      String.mk y ++ FA.pad2 (FA.numStr m) ++ FA.pad2 (FA.numStr d)
    | none =>
      match fbScan s.data with
      | some (y, m, d) =>
        String.mk y ++ FA.pad2 (FA.numStr m) ++ FA.pad2 (FA.numStr d)
      | none => ""

/-- Group key of `loadCallups`: `comp|||ed|||country` on trimmed fields. -/
def gkOf (r : CallupRow) : String :=
  FA.jsTrim r.competition ++ "|||" ++ FA.jsTrim r.edition ++ "|||" ++
    FA.jsTrim r.country

/-- One step of the `groupMax` accumulation loop. -/
def gmStep (gm : List (String × String)) (r : CallupRow) :
    List (String × String) :=
  if FA.jsTrim r.country = "" then gm
  else
    let gk := gkOf r
    let d := toKeyDate r.snapshot_date
    let cur := (FA.mget gm gk).getD ""
    if d ≠ "" && FA.jsLt cur d then FA.mset gm gk d else gm

/-- Truthiness filter of `loadCallups` on the parsed rows
(`r && r.country && r.name_en`). -/
def keptRows (parsed : List CallupRow) : List CallupRow :=
  parsed.filter (fun r => r.country ≠ "" && r.name_en ≠ "")

/-- Embeds `loadCallups` from the parsed row list: drop rows without country
or player name, compute per-(competition, edition, country) maxima of the
normalized snapshot keys, and keep a row when its group has no dated snapshot
or its own key equals the group maximum. -/
def loadCallups (parsed : List CallupRow) : List CallupRow :=
  let rows := keptRows parsed
  let groupMax := rows.foldl gmStep []
  rows.filter (fun r =>
    let maxd := (FA.mget groupMax (gkOf r)).getD ""
    if maxd ≠ "" then toKeyDate r.snapshot_date == maxd else true)

/-- Specification-side maximum: the largest normalized snapshot key among the
rows of a group (rows with an empty trimmed country are ignored, as in the
source's `continue`). -/
def strMax (a b : String) : String := if FA.jsLt a b then b else a

def maxSnap (rows : List CallupRow) (gk : String) : String :=
  ((rows.filter (fun r => FA.jsTrim r.country ≠ "" && gkOf r == gk)).map
    (fun r => toKeyDate r.snapshot_date)).foldl strMax ""

/-- Grouping key the CLAIM talks about: (competition, edition, country,
player). -/
def playerGroup (r : CallupRow) : String × String × String × String :=
  (r.competition, r.edition, r.country, r.name_en)

end FA.Callups

namespace FA.CsvSimple

/-!
Embedding of `src/lib/csvSimple.ts` (`parseCsv`).  The character scan is the
function `scanGo`; the quirk in the `\n` branch (a lone empty first field
before any completed row is kept in the open row rather than emitted) is
reproduced from the source.
-/

/-- Leading byte-order-mark strip (`replace` of a leading U+FEFF). -/
def stripBom : List Char → List Char
  | [] => []
  | c :: cs => if c.toNat = 0xfeff then cs else c :: cs

/-- Strip one trailing carriage return from a field (`replace` of `\r` at
end). -/
def stripCr (s : String) : String :=
  match s.data.reverse with
  | '\r' :: rest => String.mk rest.reverse
  | _ => s

def finishRow (row : List String) (cur : List Char) : List String :=
  (row ++ [String.mk cur]).map stripCr

/-- Quote state of the scan.  The source peeks one character ahead when it
sees a quote inside a quoted field (`s[i + 1] === '"'`); here that pending
decision is the explicit state `afterQ`, so that the loop consumes exactly
one character per step. -/
inductive QState where
  | outside : QState
  | inside : QState
  | afterQ : QState
deriving DecidableEq, Repr

/-- The character loop of `parseCsv`: `rows`/`row`/`cur` are the mutable
state of the source, `st` the quoting state, the last argument the remaining
input. -/
def scanGo (rows : List (List String)) (row : List String) (cur : List Char)
    (st : QState) : List Char → List (List String)
  | [] => rows ++ [finishRow row cur]
  | c :: cs =>
    match st with
    | .inside =>
      if c = '"' then scanGo rows row cur .afterQ cs
      else scanGo rows row (cur ++ [c]) .inside cs
    | .afterQ =>
      if c = '"' then scanGo rows row (cur ++ ['"']) .inside cs
      else if c = ',' then scanGo rows (row ++ [String.mk cur]) [] .outside cs
      else if c = '\n' then
        let row2 := row ++ [String.mk cur]
        if row2 = [""] ∧ rows = [] then scanGo rows row2 [] .outside cs
        else scanGo (rows ++ [row2.map stripCr]) [] [] .outside cs
      else scanGo rows row (cur ++ [c]) .outside cs
    | .outside =>
      if c = '"' then scanGo rows row cur .inside cs
      else if c = ',' then scanGo rows (row ++ [String.mk cur]) [] .outside cs
      else if c = '\n' then
        let row2 := row ++ [String.mk cur]
        if row2 = [""] ∧ rows = [] then scanGo rows row2 [] .outside cs
        else scanGo (rows ++ [row2.map stripCr]) [] [] .outside cs
      else scanGo rows row (cur ++ [c]) .outside cs

/-- The quote-state transition of `scanGo`, without the row bookkeeping. -/
def qstate (st : QState) : List Char → QState
  | [] => st
  | c :: cs =>
    match st with
    | .inside => if c = '"' then qstate .afterQ cs else qstate .inside cs
    | .afterQ => if c = '"' then qstate .inside cs else qstate .outside cs
    | .outside => if c = '"' then qstate .inside cs else qstate .outside cs

def parseCsvRaw (s : String) : List (List String) :=
  scanGo [] [] [] .outside (stripBom s.data)

/-- A row survives the blank-row filter when some field is non-blank. -/
def notBlank (r : List String) : Bool :=
  r.any (fun x => FA.jsTrim x ≠ "")

/-- The header-indexed loop `obj[header[j]] = String(r[j] ?? "").trim()`:
walk the header and the fields together, missing fields read as `""`,
fields beyond the header never read. -/
def rowToObjGo (obj : List (String × String)) :
    List String → List String → List (String × String)
  | [], _ => obj
  | h :: hs, fs =>
    rowToObjGo (FA.mset obj h (FA.jsTrim (fs.headD ""))) hs fs.tail

def rowToObj (header fields : List String) : List (String × String) :=
  rowToObjGo [] header fields

/-- Embeds `parseCsv`: scan, drop blank rows, first surviving row is the
(trimmed) header, each remaining row becomes a header-keyed field mapping. -/
def parseCsv (s : String) : List (List (String × String)) :=
  let cleaned := (parseCsvRaw s).filter notBlank
  match cleaned with
  | [] => []
  | h :: dataRows => dataRows.map (rowToObj (h.map FA.jsTrim))

end FA.CsvSimple

namespace FA.Transfers

/-!
Embedding of `src/lib/transfers.ts`: `normalizeText` and
`normalizeDateToISO`.
-/

/-- NBSP-family replacement of `normalizeText` (U+00A0, U+2007, U+202F to an
ASCII space). -/
def nbspFix (c : Char) : Char :=
  if c.toNat = 0xa0 || c.toNat = 0x2007 || c.toNat = 0x202f then ' ' else c

/-- Embeds `normalizeText`: NBSP family to space, whitespace runs collapsed,
then trimmed. -/
def normalizeText (s : String) : String :=
  FA.jsTrim (String.mk (FA.collapseWs (s.data.map nbspFix)))

/-- Anchored regex `^\d{4}-\d{2}-\d{2}$` of `normalizeDateToISO`. -/
def isoExact : List Char → Bool
  | [a, b, c, d, s1, e, f, s2, g, h] =>
    FA.isDigitCh a && FA.isDigitCh b && FA.isDigitCh c && FA.isDigitCh d &&
    s1 = '-' && FA.isDigitCh e && FA.isDigitCh f && s2 = '-' &&
    FA.isDigitCh g && FA.isDigitCh h
  | _ => false

/-- Both-ends-anchored year-month-day pattern of `normalizeDateToISO`: four
digits, slash-or-dot separator, one or two digits, separator, one or two
digits, end of input; the middle group shrinks from two digits to one when
the following separator requires it (JS backtracking). -/
def ymdExact : List Char → Option (List Char × List Char × List Char)
  | a :: b :: c :: d :: rest =>
    if FA.isDigitCh a && FA.isDigitCh b && FA.isDigitCh c && FA.isDigitCh d
    then
      match rest with
      | s1 :: tail =>
        if s1 = '/' || s1 = '.' then
          match midG tail with
          | some (m, tail2) =>
            match endG tail2 with
            | some dd => some ([a, b, c, d], m, dd)
            | none => none
          | none => none
        else none
      | [] => none
    else none
  | _ => none
where
  midG : List Char → Option (List Char × List Char)
    | d1 :: d2 :: s :: tail =>
      if FA.isDigitCh d1 then
        if FA.isDigitCh d2 && (s = '/' || s = '.') then some ([d1, d2], tail)
        else if d2 = '/' || d2 = '.' then some ([d1], s :: tail)
        else none
      else none
    | d1 :: s :: tail =>
      if FA.isDigitCh d1 && (s = '/' || s = '.') then some ([d1], tail)
      else none
    | _ => none
  endG : List Char → Option (List Char)
    | [d1] => if FA.isDigitCh d1 then some [d1] else none
    | [d1, d2] =>
      if FA.isDigitCh d1 && FA.isDigitCh d2 then some [d1, d2] else none
    | _ => none

/-- Embeds `normalizeDateToISO`: empty on empty input, ISO-exact passes
through, otherwise the slash-or-dot pattern with month 1..12 and day 1..31,
rendered with `Number`-converted groups zero-padded to two digits; empty
string on everything else. -/
def normalizeDateToISO (v : String) : String :=
  let s := normalizeText v
  if s = "" then ""
  else if isoExact s.data then s
  else
    match ymdExact s.data with
    | none => ""
    | some (y, mo, d) =>
      let moN := FA.digitsToNat mo
      let dN := FA.digitsToNat d
      if moN < 1 || 12 < moN then ""
      else if dN < 1 || 31 < dN then ""
      else
        FA.numStr y ++ "-" ++ FA.pad2 (FA.numStr mo) ++ "-" ++
          FA.pad2 (FA.numStr d)

end FA.Transfers

namespace FA.RepCandidate

/-!
Embedding of `normDate` from `src/lib/repCandidate.ts`: a prefix
year-month-day match (separators slash, hyphen or dot) is rendered as
`YYYY-MM-DD` with the matched groups zero-padded; any other non-empty input
is returned trimmed but otherwise unchanged.
-/

/-- Prefix pattern of `normDate` — four digits, a slash-hyphen-or-dot
separator, one or two digits, separator, one or two digits; trailing input is
ignored; the middle group backtracks to one digit when needed. -/
def ymdPrefix : List Char → Option (List Char × List Char × List Char)
  | a :: b :: c :: d :: rest =>
    if FA.isDigitCh a && FA.isDigitCh b && FA.isDigitCh c && FA.isDigitCh d
    then
      match rest with
      | s1 :: tail =>
        if s1 = '/' || s1 = '-' || s1 = '.' then
          match midG tail with
          | some (m, tail2) =>
            match endG tail2 with
            | some dd => some ([a, b, c, d], m, dd)
            | none => none
          | none => none
        else none
      | [] => none
    else none
  | _ => none
where
  midG : List Char → Option (List Char × List Char)
    | d1 :: d2 :: s :: tail =>
      if FA.isDigitCh d1 then
        if FA.isDigitCh d2 && (s = '/' || s = '-' || s = '.') then
          some ([d1, d2], tail)
        else if d2 = '/' || d2 = '-' || d2 = '.' then some ([d1], s :: tail)
        else none
      else none
    | d1 :: s :: tail =>
      if FA.isDigitCh d1 && (s = '/' || s = '-' || s = '.') then
        some ([d1], tail)
      else none
    | _ => none
  endG : List Char → Option (List Char)
    | d1 :: d2 :: _ =>
      if FA.isDigitCh d1 then
        if FA.isDigitCh d2 then some [d1, d2] else some [d1]
      else none
    | [d1] => if FA.isDigitCh d1 then some [d1] else none
    | [] => none

/-- Embeds `normDate` of `repCandidate.ts`.  On no match the TRIMMED ORIGINAL
text is returned, not the empty string. -/
def normDate (s : String) : String :=
  let t := FA.jsTrim s
  if t = "" then ""
  else
    match ymdPrefix t.data with
    | some (y, m, d) =>
      String.mk y ++ "-" ++ FA.pad2 (String.mk m) ++ "-" ++
        FA.pad2 (String.mk d)
    | none => t

end FA.RepCandidate

namespace FA.NameMap

/-!
Embedding of the name-disambiguation store of the enrichment script
(`normDate`, `normName`, `foldDiacritics`, `loosenName`, `keyOf`,
`candidateKeys`, `upsertNameMap`, the fill-loop lookup and
`shouldSkipFail`).
-/

/-- Embeds the script's `normDate`: a `YYYY-MM-DD` prefix is taken verbatim;
otherwise a year-month-day prefix with slash, dot or hyphen separators is
zero-padded; otherwise the empty string. -/
def iso10 : List Char → Option (List Char)
  | a :: b :: c :: d :: s1 :: e :: f :: s2 :: g :: h :: _ =>
    if FA.isDigitCh a && FA.isDigitCh b && FA.isDigitCh c && FA.isDigitCh d &&
        s1 = '-' && FA.isDigitCh e && FA.isDigitCh f && s2 = '-' &&
        FA.isDigitCh g && FA.isDigitCh h then
      some [a, b, c, d, s1, e, f, s2, g, h]
    else none
  | _ => none

def normDate (s : String) : String :=
  let t0 := FA.jsTrim s
  if t0 = "" then ""
  else
    match iso10 t0.data with
    | some l => String.mk l
    | none =>
      match FA.RepCandidate.ymdPrefix t0.data with
      | some (y, m, d) =>
        String.mk y ++ "-" ++ FA.pad2 (String.mk m) ++ "-" ++
          FA.pad2 (String.mk d)
      | none => ""

/-- Quote normalization of `normName` (U+2019, apostrophe, backtick, acute
accent all become an apostrophe). -/
def quoteFix (c : Char) : Char :=
  if c.toNat = 0x2019 || c.toNat = 0x27 || c.toNat = 0x60 || c.toNat = 0xb4
  then Char.ofNat 0x27 else c

/-- Dash normalization of `normName` (U+2010 through U+2015 become an ASCII
hyphen). -/
def dashFix (c : Char) : Char :=
  if 0x2010 ≤ c.toNat && c.toNat ≤ 0x2015 then '-' else c

/-- Embeds `normName`: trim, strip every dot, normalize quotes and dashes,
collapse whitespace runs.  NOTE: no case folding happens here. -/
def normName (s : String) : String :=
  String.mk
    (FA.collapseWs
      ((((FA.trimList s.data).filter (fun c => c ≠ '.')).map quoteFix).map
        dashFix))

/-- One-character NFKD decomposition covering the Latin-1 letters the data
uses; identity on anything else (in particular on ASCII). -/
def nfkdChar (c : Char) : List Char :=
  match c.toNat with
  | 0xc0 => ['A', Char.ofNat 0x300]
  | 0xc1 => ['A', Char.ofNat 0x301]
  | 0xc2 => ['A', Char.ofNat 0x302]
  | 0xc3 => ['A', Char.ofNat 0x303]
  | 0xc4 => ['A', Char.ofNat 0x308]
  | 0xc5 => ['A', Char.ofNat 0x30a]
  | 0xc7 => ['C', Char.ofNat 0x327]
  | 0xc8 => ['E', Char.ofNat 0x300]
  | 0xc9 => ['E', Char.ofNat 0x301]
  | 0xca => ['E', Char.ofNat 0x302]
  | 0xcb => ['E', Char.ofNat 0x308]
  | 0xcc => ['I', Char.ofNat 0x300]
  | 0xcd => ['I', Char.ofNat 0x301]
  | 0xce => ['I', Char.ofNat 0x302]
  | 0xcf => ['I', Char.ofNat 0x308]
  | 0xd1 => ['N', Char.ofNat 0x303]
  | 0xd2 => ['O', Char.ofNat 0x300]
  | 0xd3 => ['O', Char.ofNat 0x301]
  | 0xd4 => ['O', Char.ofNat 0x302]
  | 0xd5 => ['O', Char.ofNat 0x303]
  | 0xd6 => ['O', Char.ofNat 0x308]
  | 0xd9 => ['U', Char.ofNat 0x300]
  | 0xda => ['U', Char.ofNat 0x301]
  | 0xdb => ['U', Char.ofNat 0x302]
  | 0xdc => ['U', Char.ofNat 0x308]
  | 0xdd => ['Y', Char.ofNat 0x301]
  | 0xe0 => ['a', Char.ofNat 0x300]
  | 0xe1 => ['a', Char.ofNat 0x301]
  | 0xe2 => ['a', Char.ofNat 0x302]
  | 0xe3 => ['a', Char.ofNat 0x303]
  | 0xe4 => ['a', Char.ofNat 0x308]
  | 0xe5 => ['a', Char.ofNat 0x30a]
  | 0xe7 => ['c', Char.ofNat 0x327]
  | 0xe8 => ['e', Char.ofNat 0x300]
  | 0xe9 => ['e', Char.ofNat 0x301]
  | 0xea => ['e', Char.ofNat 0x302]
  | 0xeb => ['e', Char.ofNat 0x308]
  | 0xec => ['i', Char.ofNat 0x300]
  | 0xed => ['i', Char.ofNat 0x301]
  | 0xee => ['i', Char.ofNat 0x302]
  | 0xef => ['i', Char.ofNat 0x308]
  | 0xf1 => ['n', Char.ofNat 0x303]
  | 0xf2 => ['o', Char.ofNat 0x300]
  | 0xf3 => ['o', Char.ofNat 0x301]
  | 0xf4 => ['o', Char.ofNat 0x302]
  | 0xf5 => ['o', Char.ofNat 0x303]
  | 0xf6 => ['o', Char.ofNat 0x308]
  | 0xf9 => ['u', Char.ofNat 0x300]
  | 0xfa => ['u', Char.ofNat 0x301]
  | 0xfb => ['u', Char.ofNat 0x302]
  | 0xfc => ['u', Char.ofNat 0x308]
  | 0xfd => ['y', Char.ofNat 0x301]
  | 0xff => ['y', Char.ofNat 0x308]
  | _ => [c]

/-- Embeds `foldDiacritics`: NFKD decomposition followed by removal of the
combining marks U+0300 .. U+036F. -/
def foldDiacritics (s : String) : String :=
  String.mk
    ((s.data.flatMap nfkdChar).filter
      (fun c => !(0x300 ≤ c.toNat && c.toNat ≤ 0x36f)))

/-- Dash-to-space loosening of `loosenName` (ASCII hyphen and U+2010 through
U+2014 become a space). -/
def dashLoose (c : Char) : Char :=
  if c = '-' || (0x2010 ≤ c.toNat && c.toNat ≤ 0x2014) then ' ' else c

/-- Quote normalization of `loosenName` (U+2019 and apostrophe to
apostrophe). -/
def quoteLoose (c : Char) : Char :=
  if c.toNat = 0x2019 || c.toNat = 0x27 then Char.ofNat 0x27 else c

/-- Embeds `loosenName`: trim, normalize quotes, dashes to spaces, collapse
whitespace runs. -/
def loosenName (s : String) : String :=
  String.mk
    (FA.collapseWs (((FA.trimList s.data).map quoteLoose).map dashLoose))

def keyOf (name_en birth_date : String) : String :=
  FA.jsTrim name_en ++ "|" ++ FA.jsTrim birth_date

/-- JS `Set`-style push: append unless already present. -/
def uniqPush (l : List String) (x : String) : List String :=
  if x ∈ l then l else l ++ [x]

/-- Embeds `candidateKeys`: raw, punctuation-normalized, diacritic-folded and
combined variants, plus the loosened variants when loosening changes the raw
name; insertion-ordered and de-duplicated. -/
def candidateKeys (name_en_raw birth_norm : String) : List String :=
  let raw := FA.jsTrim name_en_raw
  let v1 := raw
  let v2 := normName raw
  let v3 := foldDiacritics v1
  let v4 := foldDiacritics v2
  let base :=
    [keyOf v1 birth_norm, keyOf v2 birth_norm, keyOf v3 birth_norm,
      keyOf v4 birth_norm].foldl uniqPush []
  let loose := loosenName raw
  if loose ≠ "" ∧ loose ≠ raw then
    [keyOf loose birth_norm,
      keyOf (foldDiacritics loose) birth_norm].foldl uniqPush base
  else base

structure NameMapEntry where
  key : String
  name_en : String
  birth_date : String
  name_ja : String
  source : String
  updated_at : String
deriving DecidableEq, Repr

structure NameMapStore where
  index : List (String × NameMapEntry)
  canon : List (String × NameMapEntry)
deriving DecidableEq, Repr

def emptyStore : NameMapStore := ⟨[], []⟩

/-- Embeds `upsertNameMap` (`today` stands for the current date the source
takes from the clock): one canonical entry plus every alias-key variant in
the index, last write winning per key. -/
def upsertNameMap (st : NameMapStore) (name_en_raw birth name_ja today : String) :
    NameMapStore :=
  let name_en := normName (FA.jsTrim name_en_raw)
  let key := keyOf name_en birth
  let entry : NameMapEntry := ⟨key, name_en, birth, name_ja, "wikidata", today⟩
  { canon := FA.mset st.canon key entry
    index :=
      (candidateKeys name_en_raw birth).foldl
        (fun ix k => FA.mset ix k entry) st.index }

/-- First alias-index hit of the fill loop (`hit = index.get(k)?.name_ja ?? "";
if (hit) break`). -/
def firstHit (index : List (String × NameMapEntry)) : List String → String
  | [] => ""
  | k :: ks =>
    let hit := ((FA.mget index k).map NameMapEntry.name_ja).getD ""
    if hit ≠ "" then hit else firstHit index ks

/-- Embeds the fill-loop lookup of `main`: trim the raw name, normalize the
birth date, probe the alias index under every candidate key. -/
def fillLookup (index : List (String × NameMapEntry))
    (name_en_field birth_field : String) : String :=
  let name_en_raw := FA.jsTrim name_en_field
  let birth := normDate birth_field
  firstHit index (candidateKeys name_en_raw birth)

structure FailEntry where
  key : String
  reason : String
  checked_at : String
deriving DecidableEq, Repr

/-- Embeds `shouldSkipFail`.  `parseTime` stands for
`new Date(checked_at).getTime()` together with the `Number.isFinite` guard:
`none` models a non-finite (NaN) parse. -/
def shouldSkipFail (failMap : List (String × FailEntry))
    (parseTime : String → Option Int) (nowMs skipMs : Int) (key : String) :
    Bool :=
  match FA.mget failMap key with
  | none => false
  | some f =>
    if f.reason = "api_error" then false
    else
      match parseTime f.checked_at with
      | none => false
      | some t => decide (nowMs - t < skipMs)

end FA.NameMap

namespace FA.ClubResolver

/-!
Embedding of the club-master resolver of the squad conversion script
(`keyNormalize`, alias expansion, `resolveClubFromMaster`).
-/

structure ClubMasterRow where
  league_key : String
  club_key : String
  league_display : String
  club_display_ja : String
  club_display_en : String
  aliases : String
  club_alias_en : String
  club_alias_ja : String
deriving DecidableEq, Repr

def spaceFix (c : Char) : Char :=
  if c.toNat = 0xa0 || c.toNat = 0x3000 then ' ' else c

def isZeroWidth (c : Char) : Bool :=
  (0x200b ≤ c.toNat && c.toNat ≤ 0x200d) || c.toNat = 0xfeff

/-- Embeds `keyNormalize`: NBSP and ideographic spaces to ASCII space,
zero-width characters removed, NFKC (identity on the code points the master
data uses), trim, lower-case. -/
def keyNormalize (v : String) : String :=
  FA.jsLower
    (FA.jsTrim (String.mk ((v.data.map spaceFix).filter (fun c => !isZeroWidth c))))

/-- Split on any single occurrence of the given separator characters
(JS `String.split` with a one-character-class regex). -/
def splitAnyGo (isSep : Char → Bool) (cur : List Char) :
    List Char → List String
  | [] => [String.mk cur.reverse]
  | c :: cs =>
    if isSep c then String.mk cur.reverse :: splitAnyGo isSep [] cs
    else splitAnyGo isSep (c :: cur) cs

def splitAny (isSep : Char → Bool) (s : String) : List String :=
  splitAnyGo isSep [] s.data

/-- Embeds `expandAliases`: the `aliases` column splits on `|`, `/`, `;` or
`,`; the dedicated alias columns split on `|`; every piece is trimmed and
empty pieces are dropped.  An absent column is the empty string. -/
def expandAliases (m : ClubMasterRow) : List String :=
  (((if m.aliases ≠ "" then
      splitAny (fun c => c = '|' || c = '/' || c = ';' || c = ',') m.aliases
    else []) ++
    (if m.club_alias_en ≠ "" then splitAny (fun c => c = '|') m.club_alias_en
    else []) ++
    (if m.club_alias_ja ≠ "" then splitAny (fun c => c = '|') m.club_alias_ja
    else [])).map FA.jsTrim).filter (fun x => x ≠ "")

/-- Embeds `findClub` for an already-normalized club input `c`: some
candidate (canonical displays and every alias piece, normalized) is
non-empty and equal to, a substring of, or a superstring of `c`. -/
def findClub (c : String) (m : ClubMasterRow) : Bool :=
  (([m.club_display_en, m.club_display_ja] ++ expandAliases m).map
    keyNormalize).any
    (fun x => x ≠ "" && (x == c || FA.jsIncludes x c || FA.jsIncludes c x))

structure Resolved where
  league_key : String
  club_key : String
  club_display_ja : String
  league_display : String
deriving DecidableEq, Repr

/-- Embeds `resolveClubFromMaster`: filter the master by normalized league
display; when nothing matches the league, search the whole master; return
the first row matching the club, if any. -/
def resolveClubFromMaster (masters : List ClubMasterRow)
    (leagueDisp clubDisp : String) : Option Resolved :=
  let l := keyNormalize leagueDisp
  let c := keyNormalize clubDisp
  let leagueMatches :=
    masters.filter (fun m => keyNormalize m.league_display == l)
  let pool := if leagueMatches ≠ [] then leagueMatches else masters
  (pool.find? (findClub c)).map
    (fun hit => ⟨hit.league_key, hit.club_key, hit.club_display_ja,
      hit.league_display⟩)

end FA.ClubResolver

namespace FA.ClubSquads

/-!
Embedding of `src/lib/clubSquads.ts` (`loadClubSquads`), from the point where
`readCSV` has produced the header-keyed raw rows.
-/

structure RawRow where
  season : String
  window : String
  league : String
  club : String
  league_key : String
  club_key : String
  club_shirt_no : String
  position_primary : String
  is_star : String
  name_en : String
  birth_date : String
  height_cm : String
  snapshot_date : String
  name_ja : String
  nationality : String
  foot : String
  join_date : String
  prev_club : String
  contract_until : String
  source : String
  notes : String
deriving DecidableEq, Repr

structure ClubSquadRow where
  season : String
  window : String
  league : String
  club : String
  league_key : String
  club_key : String
  club_shirt_no : String
  position_primary : String
  is_star : String
  name_en : String
  birth_date : String
  height_cm : Option Int
  snapshot_date : String
  name_ja : String
  nationality : String
  foot : String
  join_date : String
  prev_club : String
  contract_until : String
  source : String
  notes : String
deriving DecidableEq, Repr

/-- Embeds `numOrNull` on the integer-valued height column: empty gives
`null`, a signed digit string gives its value, anything else `null`. -/
def numOrNull (s : String) : Option Int :=
  let t := FA.jsTrim s
  if t = "" then none
  else
    match t.data with
    | '-' :: ds =>
      if ds ≠ [] ∧ ds.all FA.isDigitCh then some (-(FA.digitsToNat ds : Int))
      else none
    | ds => if ds.all FA.isDigitCh then some (FA.digitsToNat ds : Int) else none

/-- Embeds `normalizeWindow`: `winter` survives, everything else becomes
`summer`. -/
def normalizeWindow (v : String) : String :=
  if FA.jsLower (FA.jsTrim v) = "winter" then "winter" else "summer"

/-- Embeds the per-row conversion of `loadClubSquads`: rows whose trimmed
`league_key` or `club_key` is empty produce no output. -/
def convertRow (r : RawRow) : Option ClubSquadRow :=
  let league_key := FA.jsTrim r.league_key
  let club_key := FA.jsTrim r.club_key
  if league_key = "" ∨ club_key = "" then none
  else
    some
      { season := FA.jsTrim r.season
        window := normalizeWindow r.window
        league := r.league
        club := r.club
        league_key := league_key
        club_key := club_key
        club_shirt_no := r.club_shirt_no
        position_primary := r.position_primary
        is_star := r.is_star
        name_en := r.name_en
        birth_date := r.birth_date
        height_cm := numOrNull r.height_cm
        snapshot_date := r.snapshot_date
        name_ja := r.name_ja
        nationality := r.nationality
        foot := r.foot
        join_date := r.join_date
        prev_club := r.prev_club
        contract_until := r.contract_until
        source := r.source
        notes := r.notes }

def loadClubSquads (rows : List RawRow) : List ClubSquadRow :=
  rows.filterMap convertRow

end FA.ClubSquads

namespace FA.Fixtures

/-!
Concrete rows and events used by the witness and counterexample theorems.
-/

/-- A shootout-period goal event (period `PSO`). -/
def psoEvent : FA.MatchEvents.MatchEvent :=
  ⟨"WC", "2026", "m1", "5", "GOAL", "X", "P", "Q", "120", "PSO", "F", "Y", ""⟩

/-- A regular goal event by player `A` for team `X`. -/
def goalEvent : FA.MatchEvents.MatchEvent :=
  ⟨"WC", "2026", "m1", "1", "GOAL", "X", "A", "B", "10", "1H", "F", "Y", ""⟩

/-- Goal event whose player name contains the `__` separator of the grouping
key. -/
def sepEvent1 : FA.MatchEvents.MatchEvent :=
  ⟨"WC", "2026", "m1", "2", "GOAL", "c", "a__b", "", "11", "1H", "F", "Y", ""⟩

/-- Goal event by player `a` for team `b__c`: its grouping key collides with
`sepEvent1`. -/
def sepEvent2 : FA.MatchEvents.MatchEvent :=
  ⟨"WC", "2026", "m2", "3", "GOAL", "b__c", "a", "", "12", "1H", "F", "Z", ""⟩

/-- Call-up row for player `A` of Japan, snapshot 2025-10-01. -/
def rowA : FA.Callups.CallupRow := ⟨"WC", "2026", "AFC", "Japan", "A", "2025-10-01"⟩

/-- Call-up row for player `B` of Japan, snapshot 2025-11-01. -/
def rowB : FA.Callups.CallupRow := ⟨"WC", "2026", "AFC", "Japan", "B", "2025-11-01"⟩

/-- Call-up row for player `A` of Japan with an empty snapshot date. -/
def rowEmptySnap : FA.Callups.CallupRow := ⟨"WC", "2026", "AFC", "Japan", "A", ""⟩

/-- Call-up row for player `A` of Japan, snapshot 2025-11-01. -/
def rowA2 : FA.Callups.CallupRow := ⟨"WC", "2026", "AFC", "Japan", "A", "2025-11-01"⟩

/-- A club-master row for Arsenal in the Premier League. -/
def arsenalRow : FA.ClubResolver.ClubMasterRow :=
  ⟨"eng1", "arsenal", "Premier League", "アーセナル", "Arsenal",
    "Arsenal FC|The Gunners", "", ""⟩

/-- A raw club-squad row carrying both keys. -/
def keyedRawRow : FA.ClubSquads.RawRow :=
  ⟨"2025-26", "winter", "Premier League", "Arsenal", "eng1", "arsenal", "7",
    "FW", "", "B. Saka", "2001-09-05", "178", "2026-02-01", "サカ", "England",
    "left", "", "", "", "tm", ""⟩

/-- A raw club-squad row missing the `club_key`. -/
def unkeyedRawRow : FA.ClubSquads.RawRow :=
  ⟨"2025-26", "winter", "Premier League", "Arsenal", "eng1", "", "9", "FW",
    "", "G. Jesus", "1997-04-03", "175", "2026-02-01", "ジェズス", "Brazil",
    "right", "", "", "", "tm", ""⟩

/-- The converted output row of `keyedRawRow`. -/
def keyedOutRow : FA.ClubSquads.ClubSquadRow :=
  ⟨"2025-26", "winter", "Premier League", "Arsenal", "eng1", "arsenal", "7",
    "FW", "", "B. Saka", "2001-09-05", some 178, "2026-02-01", "サカ",
    "England", "left", "", "", "", "tm", ""⟩

end FA.Fixtures

namespace FA

/-! ### Association-map lemmas shared by the aggregation proofs. -/

theorem mget_mset_self {β : Type} (m : List (String × β)) (k : String) (v : β) :
    mget (mset m k v) k = some v := by
  induction m with
  | nil => simp [mset, mget]
  | cons kv rest ih =>
    obtain ⟨k', v'⟩ := kv
    by_cases h : k' = k <;> simp [mset, mget, h, ih]

theorem mget_mset_ne {β : Type} (m : List (String × β)) (k k' : String) (v : β)
    (h : k' ≠ k) : mget (mset m k v) k' = mget m k' := by
  induction m with
  | nil =>
    simp only [mset, mget]
    rw [if_neg (fun hh => h hh.symm)]
  | cons kv rest ih =>
    obtain ⟨k0, v0⟩ := kv
    by_cases h0 : k0 = k
    · subst h0
      simp only [mset, if_pos rfl, mget]
      rw [if_neg (fun hh => h hh.symm), if_neg (fun hh => h hh.symm)]
    · simp only [mset, if_neg h0, mget]
      split
      · rfl
      · exact ih

theorem mem_keys_mset {β : Type} (m : List (String × β)) (k k' : String)
    (v : β) :
    k' ∈ (mset m k v).map Prod.fst ↔ k' ∈ m.map Prod.fst ∨ k' = k := by
  induction m with
  | nil => simp [mset]
  | cons kv rest ih =>
    obtain ⟨k0, v0⟩ := kv
    by_cases h0 : k0 = k
    · subst h0; simp [mset]; tauto
    · simp only [mset, if_neg h0, List.map_cons, List.mem_cons, ih]; tauto

theorem mset_keys_nodup {β : Type} (m : List (String × β)) (k : String) (v : β)
    (h : (m.map Prod.fst).Nodup) : ((mset m k v).map Prod.fst).Nodup := by
  induction m with
  | nil => simp [mset]
  | cons kv rest ih =>
    obtain ⟨k0, v0⟩ := kv
    simp only [List.map_cons, List.nodup_cons] at h
    by_cases h0 : k0 = k
    · subst h0
      have hm : mset ((k0, v0) :: rest) k0 v = (k0, v) :: rest := by
        simp [mset]
      rw [hm]
      simp only [List.map_cons, List.nodup_cons]
      exact h
    · simp only [mset, if_neg h0, List.map_cons, List.nodup_cons]
      refine ⟨fun hmem => ?_, ih h.2⟩
      rcases (mem_keys_mset rest k k0 v).mp hmem with hin | heq
      · exact h.1 hin
      · exact h0 heq

theorem mget_eq_some_of_mem {β : Type} (m : List (String × β)) (k : String)
    (v : β) (hnd : (m.map Prod.fst).Nodup) (hm : (k, v) ∈ m) :
    mget m k = some v := by
  induction m with
  | nil => simp at hm
  | cons kv rest ih =>
    obtain ⟨k0, v0⟩ := kv
    simp only [List.map_cons, List.nodup_cons] at hnd
    rcases List.mem_cons.mp hm with h | h
    · cases h; simp [mget]
    · have hk : k0 ≠ k := by
        rintro rfl
        exact hnd.1 (List.mem_map.mpr ⟨(k0, v), h, rfl⟩)
      simp [mget, hk, ih hnd.2 h]

theorem mem_of_mget_eq_some {β : Type} (m : List (String × β)) (k : String)
    (v : β) (h : mget m k = some v) : (k, v) ∈ m := by
  induction m with
  | nil => simp [mget] at h
  | cons kv rest ih =>
    obtain ⟨k0, v0⟩ := kv
    by_cases h0 : k0 = k
    · subst h0; simp [mget] at h; simp [h]
    · simp only [mget, h0, if_false] at h
      exact List.mem_cons_of_mem _ (ih h)

theorem mvalues_mem_of_mget {β : Type} (m : List (String × β)) (k : String)
    (v : β) (h : mget m k = some v) : v ∈ mvalues m := by
  have := mem_of_mget_eq_some m k v h
  exact List.mem_map.mpr ⟨(k, v), this, rfl⟩

/-- Folding a guarded step over a list ignores an element whose guard is
false: the structural "no option includes it" fact behind the shootout
exclusion. -/
theorem foldl_guard_erase {σ α : Type} (g : α → Bool) (step : σ → α → σ)
    (e : α) (hg : g e = false) :
    ∀ (l1 l2 : List α) (init : σ),
      (l1 ++ e :: l2).foldl (fun m x => if g x then step m x else m) init =
        (l1 ++ l2).foldl (fun m x => if g x then step m x else m) init := by
  intro l1
  induction l1 with
  | nil => intro l2 init; simp [hg]
  | cons a l1 ih => intro l2 init; simp only [List.cons_append, List.foldl_cons]; exact ih l2 _

end FA

/-- C4 counterexample: after upserting the canonical entry for
`("O. Baumann", "1990-01-01") → "バウマン"`, a lookup under the CASE variant
`"O. BAUMANN"` with the same birth date yields no hit (the empty string), not
`"バウマン"`: alias keys are punctuation- and diacritic-normalized but never
case-folded. -/
theorem C4_nameMap_counterexample :
    FA.NameMap.fillLookup
        (FA.NameMap.upsertNameMap FA.NameMap.emptyStore "O. Baumann"
          "1990-01-01" "バウマン" "2026-02-01").index
        "O. BAUMANN" "1990-01-01" = "" ∧
      ("" : String) ≠ "バウマン" := by
  constructor
  · decide
  · decide

/-- C4 amended: the round trip holds for the raw form and for punctuation
variants — after the upsert, lookups under `"O. Baumann"` and `"O Baumann"`
with the same birth date resolve to `"バウマン"` — but not for case variants
such as `"O. BAUMANN"`, because the alias index is case-sensitive. -/
theorem C4_nameMap_amended :
    FA.NameMap.fillLookup
        (FA.NameMap.upsertNameMap FA.NameMap.emptyStore "O. Baumann"
          "1990-01-01" "バウマン" "2026-02-01").index
        "O. Baumann" "1990-01-01" = "バウマン" ∧
      FA.NameMap.fillLookup
          (FA.NameMap.upsertNameMap FA.NameMap.emptyStore "O. Baumann"
            "1990-01-01" "バウマン" "2026-02-01").index
          "O Baumann" "1990-01-01" = "バウマン" := by
  constructor
  · decide
  · decide

/-- C5 counterexample: `normDate` of `repCandidate.ts` — one of the two date
normalizers the claim covers — returns the ORIGINAL text `"not-a-date"`, not
the empty string, on unrecognized input. -/
theorem C5_dateNormalize_counterexample :
    FA.RepCandidate.normDate "not-a-date" = "not-a-date" ∧
      ("not-a-date" : String) ≠ "" := by
  constructor
  · decide
  · decide

/-- C5 amended: both normalizers are total and map `"2024-01-05"`,
`"2024/1/5"` and `"2024.1.5"` to `"2024-01-05"`; `normalizeDateToISO`
(transfers) returns the empty string on every input matching no recognized
pattern, including `"not-a-date"` and `""`; `normDate` (repCandidate) returns
`""` on empty input but falls back to the TRIMMED ORIGINAL text on other
unrecognized input. -/
theorem C5_dateNormalize_amended :
    (FA.Transfers.normalizeDateToISO "2024-01-05" = "2024-01-05" ∧
      FA.Transfers.normalizeDateToISO "2024/1/5" = "2024-01-05" ∧
      FA.Transfers.normalizeDateToISO "2024.1.5" = "2024-01-05" ∧
      FA.Transfers.normalizeDateToISO "not-a-date" = "" ∧
      FA.Transfers.normalizeDateToISO "" = "") ∧
    (FA.RepCandidate.normDate "2024-01-05" = "2024-01-05" ∧
      FA.RepCandidate.normDate "2024/1/5" = "2024-01-05" ∧
      FA.RepCandidate.normDate "2024.1.5" = "2024-01-05" ∧
      FA.RepCandidate.normDate "" = "") ∧
    (∀ s : String,
      FA.Transfers.isoExact (FA.Transfers.normalizeText s).data = false →
      FA.Transfers.ymdExact (FA.Transfers.normalizeText s).data = none →
      FA.Transfers.normalizeDateToISO s = "") ∧
    (∀ s : String,
      FA.RepCandidate.ymdPrefix (FA.jsTrim s).data = none →
      FA.RepCandidate.normDate s = FA.jsTrim s) := by
  refine ⟨⟨by decide, by decide, by decide, by decide, by decide⟩,
    ⟨by decide, by decide, by decide, by decide⟩, ?_, ?_⟩
  · intro s hiso hymd
    by_cases hs : FA.Transfers.normalizeText s = ""
    · simp [FA.Transfers.normalizeDateToISO, hs]
    · simp [FA.Transfers.normalizeDateToISO, hs, hiso, hymd]
  · intro s hymd
    by_cases hs : FA.jsTrim s = ""
    · simp [FA.RepCandidate.normDate, hs]
    · simp [FA.RepCandidate.normDate, hs, hymd]

/-- C5 amended witness at concrete unrecognized input `"xyz"`. -/
theorem C5_dateNormalize_amended_witness :
    FA.Transfers.isoExact (FA.Transfers.normalizeText "xyz").data = false ∧
      FA.Transfers.ymdExact (FA.Transfers.normalizeText "xyz").data = none ∧
      FA.Transfers.normalizeDateToISO "xyz" = "" ∧
      FA.RepCandidate.ymdPrefix (FA.jsTrim "xyz").data = none ∧
      FA.RepCandidate.normDate "xyz" = FA.jsTrim "xyz" :=
  ⟨by decide, by decide,
    C5_dateNormalize_amended.2.2.1 "xyz" (by decide) (by decide),
    by decide,
    C5_dateNormalize_amended.2.2.2 "xyz" (by decide)⟩

/-- C7: `shouldSkipFail` suppresses a retry exactly when a failure-cache
entry exists for the key, its reason is not `api_error`, its `checked_at`
parses to a finite time, and the elapsed time since it is below the cooldown
window; in particular an `api_error` entry never suppresses a retry. -/
theorem C7_shouldSkipFail_iff :
    ∀ (failMap : List (String × FA.NameMap.FailEntry))
      (parseTime : String → Option Int) (nowMs skipMs : Int) (key : String),
      FA.NameMap.shouldSkipFail failMap parseTime nowMs skipMs key = true ↔
        ∃ f : FA.NameMap.FailEntry, FA.mget failMap key = some f ∧
          f.reason ≠ "api_error" ∧
          ∃ t : Int, parseTime f.checked_at = some t ∧ nowMs - t < skipMs := by
  intro failMap parseTime nowMs skipMs key
  unfold FA.NameMap.shouldSkipFail
  cases hf : FA.mget failMap key with
  | none => simp
  | some f =>
    by_cases hr : f.reason = "api_error"
    · simp [hr]
    · cases ht : parseTime f.checked_at with
      | none => simp [hr, ht]
      | some t => simp [hr, ht]

/-- Specification of the `addRank` loop after the first row: `prev` is the
previous row's score, `rank` its rank, `i` the number of rows already
emitted.  For a sorted-descending remainder, a score equal to `prev` inherits
`rank`, and a strictly smaller score is ranked one past the count of strictly
greater scores before it. -/
theorem addRankGo_getElem (rest : List Int) :
    ∀ (prev : Int) (rank i : Nat),
      List.Sorted (· ≥ ·) (prev :: rest) →
      ∀ (j : Nat) (s : Int), rest[j]? = some s →
        (FA.MatchEvents.addRankGo (some prev) rank i rest)[j]? =
          some (s, if prev ≤ s then rank
            else i + 1 + rest.countP (fun x => decide (s < x))) := by
  induction rest with
  | nil => intro prev rank i _ j s hj; simp at hj
  | cons r rest ih =>
    intro prev rank i hs j s hj
    have hcons := List.sorted_cons.mp hs
    have hpr : prev ≥ r := hcons.1 r (by simp)
    have hs' : List.Sorted (· ≥ ·) (r :: rest) := hcons.2
    have hrest : ∀ x ∈ rest, r ≥ x := (List.sorted_cons.mp hs').1
    have hcount0 : rest.countP (fun x => decide (r < x)) = 0 :=
      List.countP_eq_zero.mpr (fun x hx => by
        simpa using Int.not_lt.mpr (hrest x hx))
    cases j with
    | zero =>
      simp only [List.getElem?_cons_zero, Option.some.injEq] at hj
      subst hj
      by_cases hpe : prev = r
      · subst hpe
        simp [FA.MatchEvents.addRankGo, le_refl]
      · have hlt : r < prev := lt_of_le_of_ne hpr (fun hh => hpe hh.symm)
        have hnle : ¬ prev ≤ r := Int.not_le.mpr hlt
        simp [FA.MatchEvents.addRankGo, hpe, hnle, List.countP_cons, hcount0]
    | succ j =>
      simp only [List.getElem?_cons_succ] at hj
      have hmem : s ∈ rest := List.getElem?_mem hj
      have hsr : r ≥ s := hrest s hmem
      by_cases hpe : prev = r
      · have hlhs :
            (FA.MatchEvents.addRankGo (some prev) rank i (r :: rest))[j + 1]? =
              (FA.MatchEvents.addRankGo (some r) rank (i + 1) rest)[j]? := by
          simp [FA.MatchEvents.addRankGo, hpe]
        rw [hlhs, ih r rank (i + 1) hs' j s hj, hpe]
        by_cases hrs : r ≤ s
        · have hseq : s = r := le_antisymm hsr hrs
          subst hseq
          simp [le_refl, List.countP_cons, hcount0]
        · have hslt : s < r := Int.not_le.mp hrs
          have hc : (r :: rest).countP (fun x => decide (s < x)) =
              rest.countP (fun x => decide (s < x)) + 1 := by
            simp [List.countP_cons, hslt]
          rw [if_neg hrs, if_neg hrs, hc]
          simp only [Option.some.injEq, Prod.mk.injEq, true_and]
          omega
      · have hlt : r < prev := lt_of_le_of_ne hpr (fun hh => hpe hh.symm)
        have hlhs :
            (FA.MatchEvents.addRankGo (some prev) rank i (r :: rest))[j + 1]? =
              (FA.MatchEvents.addRankGo (some r) (i + 1) (i + 1) rest)[j]? := by
          simp [FA.MatchEvents.addRankGo, hpe]
        rw [hlhs, ih r (i + 1) (i + 1) hs' j s hj]
        have hnps : ¬ prev ≤ s := Int.not_le.mpr (lt_of_le_of_lt hsr hlt)
        rw [if_neg hnps]
        by_cases hrs : r ≤ s
        · have hseq : s = r := le_antisymm hsr hrs
          subst hseq
          simp [le_refl, List.countP_cons, hcount0]
        · have hslt : s < r := Int.not_le.mp hrs
          have hc : (r :: rest).countP (fun x => decide (s < x)) =
              rest.countP (fun x => decide (s < x)) + 1 := by
            simp [List.countP_cons, hslt]
          rw [if_neg hrs, hc]
          simp only [Option.some.injEq, Prod.mk.injEq, true_and]
          omega

/-- C6: on rows pre-sorted by descending score, `addRank` assigns every row
the rank `1 + (number of strictly greater scores)`, which is exactly the
1,1,3 competition scheme: a row whose score differs from its predecessor gets
its 1-based position, tied rows inherit the rank of the first row of their
score; scores `[10, 8, 8, 5]` produce ranks `[1, 2, 2, 4]`. -/
theorem C6_addRank_rule :
    (∀ (scores : List Int), List.Sorted (· ≥ ·) scores →
      ∀ (i : Nat) (s : Int), scores[i]? = some s →
        (FA.MatchEvents.addRank scores)[i]? =
          some (s, 1 + scores.countP (fun x => decide (s < x)))) ∧
    FA.MatchEvents.addRank [10, 8, 8, 5] = [(10, 1), (8, 2), (8, 2), (5, 4)] := by
  constructor
  · intro scores hsort i s hi
    match scores, hi with
    | s0 :: rest, hi =>
      have hcons := List.sorted_cons.mp hsort
      have hrest : ∀ x ∈ rest, s0 ≥ x := hcons.1
      have hcount0 : rest.countP (fun x => decide (s0 < x)) = 0 :=
        List.countP_eq_zero.mpr (fun x hx => by
          simpa using Int.not_lt.mpr (hrest x hx))
      have hun : FA.MatchEvents.addRank (s0 :: rest) =
          (s0, 1) :: FA.MatchEvents.addRankGo (some s0) 1 1 rest := by
        simp [FA.MatchEvents.addRank, FA.MatchEvents.addRankGo]
      rw [hun]
      cases i with
      | zero =>
        simp only [List.getElem?_cons_zero, Option.some.injEq] at hi
        subst hi
        simp [List.countP_cons, hcount0]
      | succ j =>
        simp only [List.getElem?_cons_succ] at hi ⊢
        rw [addRankGo_getElem rest s0 1 1 hsort j s hi]
        have hmem : s ∈ rest := List.getElem?_mem hi
        have hsr : s0 ≥ s := hrest s hmem
        by_cases hrs : s0 ≤ s
        · have hseq : s = s0 := le_antisymm hsr hrs
          subst hseq
          simp [hrs, List.countP_cons, hcount0]
        · have hslt : s < s0 := Int.not_le.mp hrs
          have hc : (s0 :: rest).countP (fun x => decide (s < x)) =
              rest.countP (fun x => decide (s < x)) + 1 := by
            simp [List.countP_cons, hslt]
          rw [if_neg hrs, hc]
          simp only [Option.some.injEq, Prod.mk.injEq, true_and]
          omega
  · decide

/-- C6 witness: the sortedness hypothesis and the position rule discharged at
the concrete tied position 2 of `[10, 8, 8, 5]`. -/
theorem C6_addRank_rule_witness :
    List.Sorted (· ≥ ·) [(10 : Int), 8, 8, 5] ∧
      [(10 : Int), 8, 8, 5][2]? = some 8 ∧
      (FA.MatchEvents.addRank [10, 8, 8, 5])[2]? =
        some (8, 1 + [(10 : Int), 8, 8, 5].countP (fun x => decide ((8 : Int) < x))) :=
  ⟨by decide, by decide,
    C6_addRank_rule.1 [10, 8, 8, 5] (by decide) 2 8 (by decide)⟩

/-- C10: every row returned by `loadClubSquads` carries a non-empty
`league_key` and a non-empty `club_key`, and rows lacking either key are
silently dropped — the output over the raw rows equals the output over only
the keyed rows. -/
theorem C10_loadClubSquads_keys :
    (∀ (rows : List FA.ClubSquads.RawRow) (out : FA.ClubSquads.ClubSquadRow),
      out ∈ FA.ClubSquads.loadClubSquads rows →
      out.league_key ≠ "" ∧ out.club_key ≠ "") ∧
    (∀ rows : List FA.ClubSquads.RawRow,
      FA.ClubSquads.loadClubSquads rows =
        FA.ClubSquads.loadClubSquads (rows.filter
          (fun r => FA.jsTrim r.league_key ≠ "" && FA.jsTrim r.club_key ≠ ""))) := by
  constructor
  · intro rows out hmem
    rcases List.mem_filterMap.mp hmem with ⟨r, _, hconv⟩
    by_cases hcond : FA.jsTrim r.league_key = "" ∨ FA.jsTrim r.club_key = ""
    · simp [FA.ClubSquads.convertRow, hcond] at hconv
    · simp only [FA.ClubSquads.convertRow, if_neg hcond, Option.some.injEq] at hconv
      push_neg at hcond
      subst hconv
      exact ⟨hcond.1, hcond.2⟩
  · intro rows
    induction rows with
    | nil => rfl
    | cons r rows ih =>
      by_cases hl : FA.jsTrim r.league_key = ""
      · have hconv : FA.ClubSquads.convertRow r = none := by
          simp [FA.ClubSquads.convertRow, hl]
        simp [FA.ClubSquads.loadClubSquads, List.filterMap_cons, hconv, hl] at ih ⊢
        exact ih
      · by_cases hc : FA.jsTrim r.club_key = ""
        · have hconv : FA.ClubSquads.convertRow r = none := by
            simp [FA.ClubSquads.convertRow, hc]
          simp [FA.ClubSquads.loadClubSquads, List.filterMap_cons, hconv, hl, hc] at ih ⊢
          exact ih
        · simp [FA.ClubSquads.loadClubSquads, List.filterMap_cons, hl, hc] at ih ⊢
          rw [ih]

/-- C10 witness: a keyed row survives with both keys non-empty while its
unkeyed sibling is dropped. -/
theorem C10_loadClubSquads_keys_witness :
    FA.Fixtures.keyedOutRow ∈
        FA.ClubSquads.loadClubSquads
          [FA.Fixtures.keyedRawRow, FA.Fixtures.unkeyedRawRow] ∧
      FA.Fixtures.keyedOutRow.league_key ≠ "" ∧
      FA.Fixtures.keyedOutRow.club_key ≠ "" :=
  ⟨by decide,
    C10_loadClubSquads_keys.1 [FA.Fixtures.keyedRawRow, FA.Fixtures.unkeyedRawRow]
      FA.Fixtures.keyedOutRow (by decide)⟩

/-- C8: when zero master rows have a normalized `league_display` equal to the
normalized league input, the resolver searches the entire master: the result
is independent of the (unmatched) league text, and whenever the club text
matches some master row — by equality, substring or superstring against the
canonical displays and each split-and-trimmed alias, all normalized — the
resolution succeeds despite the league typo. -/
theorem C8_resolveClub_league_fallback :
    ∀ (masters : List FA.ClubResolver.ClubMasterRow) (league club : String),
      masters.filter (fun m =>
        FA.ClubResolver.keyNormalize m.league_display ==
          FA.ClubResolver.keyNormalize league) = [] →
      (∀ league2 : String,
        masters.filter (fun m =>
          FA.ClubResolver.keyNormalize m.league_display ==
            FA.ClubResolver.keyNormalize league2) = [] →
        FA.ClubResolver.resolveClubFromMaster masters league club =
          FA.ClubResolver.resolveClubFromMaster masters league2 club) ∧
      ((∃ m ∈ masters,
          FA.ClubResolver.findClub (FA.ClubResolver.keyNormalize club) m = true) →
        (FA.ClubResolver.resolveClubFromMaster masters league club).isSome) := by
  intro masters league club h
  have hres : FA.ClubResolver.resolveClubFromMaster masters league club =
      (masters.find?
        (FA.ClubResolver.findClub (FA.ClubResolver.keyNormalize club))).map
        (fun hit => ⟨hit.league_key, hit.club_key, hit.club_display_ja,
          hit.league_display⟩) := by
    simp [FA.ClubResolver.resolveClubFromMaster, h]
  constructor
  · intro league2 h2
    have hres2 : FA.ClubResolver.resolveClubFromMaster masters league2 club =
        (masters.find?
          (FA.ClubResolver.findClub (FA.ClubResolver.keyNormalize club))).map
          (fun hit => ⟨hit.league_key, hit.club_key, hit.club_display_ja,
            hit.league_display⟩) := by
      simp [FA.ClubResolver.resolveClubFromMaster, h2]
    rw [hres, hres2]
  · intro hex
    rw [hres]
    simpa using List.find?_isSome.mpr hex

/-- C8 witness: the league typo "Premire League" matches no master league
display, yet "Arsenal" resolves against the Premier League master row. -/
theorem C8_resolveClub_league_fallback_witness :
    [FA.Fixtures.arsenalRow].filter (fun m =>
        FA.ClubResolver.keyNormalize m.league_display ==
          FA.ClubResolver.keyNormalize "Premire League") = [] ∧
      (∃ m ∈ [FA.Fixtures.arsenalRow],
        FA.ClubResolver.findClub (FA.ClubResolver.keyNormalize "Arsenal") m = true) ∧
      (FA.ClubResolver.resolveClubFromMaster [FA.Fixtures.arsenalRow]
        "Premire League" "Arsenal").isSome :=
  ⟨by decide, by decide,
    (C8_resolveClub_league_fallback [FA.Fixtures.arsenalRow] "Premire League"
      "Arsenal" (by decide)).2 (by decide)⟩

/-- C3: an event in the penalty-shootout period (as recognized by
`isShootout`: period `PSO`/`PKSO` or a shootout-marked note) contributes to
none of the scoring aggregates — deleting it from the event list leaves the
goal ranking, the assist ranking, the team career tallies and the per-edition
subtotals unchanged, for every competition, edition and team.  None of the
four functions takes an option that could include it. -/
theorem C3_shootout_excluded_everywhere :
    ∀ (ev1 ev2 : List FA.MatchEvents.MatchEvent)
      (e : FA.MatchEvents.MatchEvent) (comp ed team : String),
      FA.MatchEvents.isShootout e = true →
      FA.MatchEvents.getGoalRanking (ev1 ++ e :: ev2) comp ed =
          FA.MatchEvents.getGoalRanking (ev1 ++ ev2) comp ed ∧
        FA.MatchEvents.getAssistRanking (ev1 ++ e :: ev2) comp ed =
          FA.MatchEvents.getAssistRanking (ev1 ++ ev2) comp ed ∧
        FA.MatchEvents.getTeamCareerGA (ev1 ++ e :: ev2) comp team =
          FA.MatchEvents.getTeamCareerGA (ev1 ++ ev2) comp team ∧
        FA.MatchEvents.getTeamEditionSubtotals (ev1 ++ e :: ev2) comp team =
          FA.MatchEvents.getTeamEditionSubtotals (ev1 ++ ev2) comp team := by
  intro ev1 ev2 e comp ed team hpso
  have hg : FA.MatchEvents.goalRelevant comp ed e = false := by
    simp [FA.MatchEvents.goalRelevant, hpso]
  have ha : FA.MatchEvents.assistRelevant comp ed e = false := by
    simp [FA.MatchEvents.assistRelevant, hpso]
  have hc : FA.MatchEvents.careerRelevant comp team e = false := by
    simp [FA.MatchEvents.careerRelevant, hpso]
  have hs : FA.MatchEvents.subtotalRelevant comp team e = false := by
    simp [FA.MatchEvents.subtotalRelevant, hpso]
  refine ⟨?_, ?_, ?_, ?_⟩
  · unfold FA.MatchEvents.getGoalRanking FA.MatchEvents.goalAccum
    rw [FA.foldl_guard_erase _ _ e hg ev1 ev2]
  · unfold FA.MatchEvents.getAssistRanking FA.MatchEvents.assistAccum
    rw [FA.foldl_guard_erase _ _ e ha ev1 ev2]
  · unfold FA.MatchEvents.getTeamCareerGA FA.MatchEvents.careerAccum
    rw [FA.foldl_guard_erase _ _ e hc ev1 ev2]
  · unfold FA.MatchEvents.getTeamEditionSubtotals FA.MatchEvents.subtotalAccum
    rw [FA.foldl_guard_erase _ _ e hs ev1 ev2]

/-- C3 witness: a `period = "PSO"` goal-like event is a shootout event and
its presence does not change the goal ranking of (`WC`, `2026`). -/
theorem C3_shootout_excluded_everywhere_witness :
    FA.MatchEvents.isShootout FA.Fixtures.psoEvent = true ∧
      FA.MatchEvents.getGoalRanking
          [FA.Fixtures.goalEvent, FA.Fixtures.psoEvent] "WC" "2026" =
        FA.MatchEvents.getGoalRanking [FA.Fixtures.goalEvent] "WC" "2026" :=
  ⟨by decide,
    (C3_shootout_excluded_everywhere [FA.Fixtures.goalEvent] []
      FA.Fixtures.psoEvent "WC" "2026" "X" (by decide)).1⟩

namespace FA.MatchEvents

/-- Key-consistency of the goal-ranking map: each stored row's grouping key
is its own `player __ team` concatenation. -/
def goalWf (m : List (String × GoalRankRow)) : Prop :=
  ∀ k r, FA.mget m k = some r → r.player ++ "__" ++ r.team = k

theorem goalStep_wf (m : List (String × GoalRankRow)) (e : MatchEvent)
    (hwf : goalWf m) : goalWf (goalStep m e) := by
  intro k r hk
  by_cases hke : k = goalKey e
  · subst hke
    unfold goalStep at hk
    cases hm : FA.mget m (goalKey e) with
    | none =>
      rw [hm] at hk
      rw [FA.mget_mset_self] at hk
      cases hk
      exact rfl
    | some r0 =>
      rw [hm] at hk
      rw [FA.mget_mset_self] at hk
      cases hk
      exact hwf _ r0 hm
  · have : FA.mget (goalStep m e) k = FA.mget m k := by
      unfold goalStep
      cases hm : FA.mget m (goalKey e) <;>
        exact FA.mget_mset_ne _ _ _ _ hke
    rw [this] at hk
    exact hwf k r hk

theorem goalAccum_wf (comp ed : String) :
    ∀ (events : List MatchEvent) (m : List (String × GoalRankRow)),
      goalWf m →
      goalWf (events.foldl
        (fun m e => if goalRelevant comp ed e then goalStep m e else m) m) := by
  intro events
  induction events with
  | nil => intro m h; exact h
  | cons e evs ih =>
    intro m h
    simp only [List.foldl_cons]
    by_cases hrel : goalRelevant comp ed e = true
    · rw [if_pos hrel]; exact ih _ (goalStep_wf m e h)
    · rw [if_neg hrel]; exact ih _ h

theorem goalStep_keys_nodup (m : List (String × GoalRankRow)) (e : MatchEvent)
    (h : (m.map Prod.fst).Nodup) : ((goalStep m e).map Prod.fst).Nodup := by
  unfold goalStep
  cases FA.mget m (goalKey e) <;> exact FA.mset_keys_nodup _ _ _ h

theorem goalAccum_keys_nodup (comp ed : String) :
    ∀ (events : List MatchEvent) (m : List (String × GoalRankRow)),
      (m.map Prod.fst).Nodup →
      ((events.foldl
        (fun m e => if goalRelevant comp ed e then goalStep m e else m)
          m).map Prod.fst).Nodup := by
  intro events
  induction events with
  | nil => intro m h; exact h
  | cons e evs ih =>
    intro m h
    simp only [List.foldl_cons]
    by_cases hrel : goalRelevant comp ed e = true
    · rw [if_pos hrel]; exact ih _ (goalStep_keys_nodup m e h)
    · rw [if_neg hrel]; exact ih _ h

theorem goalStep_count_self (m : List (String × GoalRankRow)) (e : MatchEvent) :
    ((FA.mget (goalStep m e) (goalKey e)).map GoalRankRow.goals).getD 0 =
      ((FA.mget m (goalKey e)).map GoalRankRow.goals).getD 0 + 1 := by
  unfold goalStep
  cases hm : FA.mget m (goalKey e) <;> simp [hm, FA.mget_mset_self]

theorem goalStep_count_other (m : List (String × GoalRankRow)) (e : MatchEvent)
    (k : String) (hk : k ≠ goalKey e) :
    FA.mget (goalStep m e) k = FA.mget m k := by
  unfold goalStep
  cases FA.mget m (goalKey e) <;> exact FA.mget_mset_ne _ _ _ _ hk

theorem goalAccum_count (comp ed : String) :
    ∀ (events : List MatchEvent) (m : List (String × GoalRankRow)) (k : String),
      ((FA.mget (events.foldl
        (fun m e => if goalRelevant comp ed e then goalStep m e else m) m)
          k).map GoalRankRow.goals).getD 0 =
        ((FA.mget m k).map GoalRankRow.goals).getD 0 +
          events.countP (fun e => goalRelevant comp ed e && (goalKey e == k)) := by
  intro events
  induction events with
  | nil => intro m k; simp
  | cons e evs ih =>
    intro m k
    simp only [List.foldl_cons, List.countP_cons]
    by_cases hrel : goalRelevant comp ed e = true
    · rw [if_pos hrel]
      by_cases hke : goalKey e = k
      · subst hke
        rw [ih]
        rw [goalStep_count_self]
        simp [hrel]
        omega
      · rw [ih]
        rw [goalStep_count_other m e k (fun hh => hke hh.symm)]
        simp [hrel, hke]
    · rw [if_neg hrel]
      rw [ih]
      have : (goalRelevant comp ed e && (goalKey e == k)) = false := by
        simp [hrel]
      simp [this]

theorem goalStep_isSome_mono (m : List (String × GoalRankRow)) (e : MatchEvent)
    (k : String) (h : (FA.mget m k).isSome) :
    (FA.mget (goalStep m e) k).isSome := by
  by_cases hke : k = goalKey e
  · subst hke
    unfold goalStep
    cases hm : FA.mget m (goalKey e) <;> simp [FA.mget_mset_self]
  · rw [goalStep_count_other m e k hke]; exact h

theorem goalAccum_isSome (comp ed : String) :
    ∀ (events : List MatchEvent) (m : List (String × GoalRankRow)) (k : String),
      ((FA.mget m k).isSome ∨
        ∃ e ∈ events, goalRelevant comp ed e = true ∧ goalKey e = k) →
      (FA.mget (events.foldl
        (fun m e => if goalRelevant comp ed e then goalStep m e else m) m)
          k).isSome := by
  intro events
  induction events with
  | nil =>
    intro m k h
    rcases h with h | ⟨e, he, _⟩
    · exact h
    · simp at he
  | cons e evs ih =>
    intro m k h
    simp only [List.foldl_cons]
    by_cases hrel : goalRelevant comp ed e = true
    · rw [if_pos hrel]
      rcases h with h | ⟨e', he', hrel', hke'⟩
      · exact ih _ k (Or.inl (goalStep_isSome_mono m e k h))
      · rcases List.mem_cons.mp he' with rfl | he''
        · subst hke'
          refine ih _ _ (Or.inl ?_)
          unfold goalStep
          cases hm : FA.mget m (goalKey e') <;> simp [FA.mget_mset_self]
        · exact ih _ k (Or.inr ⟨e', he'', hrel', hke'⟩)
    · rw [if_neg hrel]
      rcases h with h | ⟨e', he', hrel', hke'⟩
      · exact ih _ k (Or.inl h)
      · rcases List.mem_cons.mp he' with rfl | he''
        · exact absurd hrel' hrel
        · exact ih _ k (Or.inr ⟨e', he'', hrel', hke'⟩)

end FA.MatchEvents

/-- C2 counterexample: the grouping key is the string `player ++ "__" ++
team`, so the events (player `a__b`, team `c`) and (player `a`, team `b__c`)
collide: `getGoalRanking` returns the single group (`a__b`, `c`) with
`goals = 2`, although exactly one event of that competition and edition has
player `a__b` and team `c` — the claim's per-(player, team) counting fails,
and the group (`a`, `b__c`) is missing from the output. -/
theorem C2_goalRanking_counterexample :
    FA.MatchEvents.getGoalRanking
        [FA.Fixtures.sepEvent1, FA.Fixtures.sepEvent2] "WC" "2026" =
      [⟨"a__b", "c", 2⟩] ∧
    [FA.Fixtures.sepEvent1, FA.Fixtures.sepEvent2].countP (fun e =>
        FA.MatchEvents.goalRelevant "WC" "2026" e &&
          (e.player == "a__b" && e.team == "c")) = 1 := by
  constructor
  · decide
  · decide

/-- C2 amended: for every competition and edition, `getGoalRanking` counts
the non-shootout goal-type (`GOAL`/`PK`) events of that competition and
edition grouped by the concatenated key `player ++ "__" ++ team` — which
coincides with grouping by the (player, team) pair whenever no player name
contains `"__"` — and returns the groups sorted descending by count, with a
group present for every such event. -/
theorem C2_goalRanking_amended :
    ∀ (events : List FA.MatchEvents.MatchEvent) (comp ed : String),
      (∀ r ∈ FA.MatchEvents.getGoalRanking events comp ed,
        r.goals = events.countP (fun e =>
          FA.MatchEvents.goalRelevant comp ed e &&
            (FA.MatchEvents.goalKey e == r.player ++ "__" ++ r.team))) ∧
      List.Sorted FA.MatchEvents.goalsGe
        (FA.MatchEvents.getGoalRanking events comp ed) ∧
      (∀ e ∈ events, FA.MatchEvents.goalRelevant comp ed e = true →
        ∃ r ∈ FA.MatchEvents.getGoalRanking events comp ed,
          FA.MatchEvents.goalKey e = r.player ++ "__" ++ r.team) := by
  intro events comp ed
  have hperm := List.perm_insertionSort FA.MatchEvents.goalsGe
    (FA.mvalues (FA.MatchEvents.goalAccum comp ed events))
  have hout : FA.MatchEvents.getGoalRanking events comp ed =
      (FA.mvalues (FA.MatchEvents.goalAccum comp ed events)).insertionSort
        FA.MatchEvents.goalsGe := rfl
  have hnodup : ((FA.MatchEvents.goalAccum comp ed events).map Prod.fst).Nodup :=
    FA.MatchEvents.goalAccum_keys_nodup comp ed events [] (by simp)
  have hwf : FA.MatchEvents.goalWf (FA.MatchEvents.goalAccum comp ed events) :=
    FA.MatchEvents.goalAccum_wf comp ed events [] (by intro k r h; simp [FA.mget] at h)
  refine ⟨?_, ?_, ?_⟩
  · intro r hr
    rw [hout] at hr
    have hr' : r ∈ FA.mvalues (FA.MatchEvents.goalAccum comp ed events) :=
      (hperm.mem_iff).mp hr
    rcases List.mem_map.mp hr' with ⟨⟨k, r0⟩, hkr, hsnd⟩
    have hre : r = r0 := hsnd.symm
    subst hre
    have hget : FA.mget (FA.MatchEvents.goalAccum comp ed events) k = some r :=
      FA.mget_eq_some_of_mem _ k r hnodup hkr
    have hkey : r.player ++ "__" ++ r.team = k := hwf k r hget
    have hcnt := FA.MatchEvents.goalAccum_count comp ed events [] k
    have haccum : (events.foldl (fun m e =>
        if FA.MatchEvents.goalRelevant comp ed e then
          FA.MatchEvents.goalStep m e else m) []) =
        FA.MatchEvents.goalAccum comp ed events := rfl
    rw [haccum, hget] at hcnt
    rw [hkey]
    simpa [FA.mget] using hcnt
  · rw [hout]
    exact List.sorted_insertionSort FA.MatchEvents.goalsGe _
  · intro e he hrel
    have hsome := FA.MatchEvents.goalAccum_isSome comp ed events []
      (FA.MatchEvents.goalKey e) (Or.inr ⟨e, he, hrel, rfl⟩)
    rcases Option.isSome_iff_exists.mp hsome with ⟨r, hget⟩
    refine ⟨r, ?_, (hwf _ r hget).symm⟩
    rw [hout]
    exact (hperm.mem_iff).mpr (FA.mvalues_mem_of_mget _ _ r hget)

/-- C2 amended witness: all three parts discharged on a single concrete
goal event. -/
theorem C2_goalRanking_amended_witness :
    (FA.MatchEvents.GoalRankRow.mk "A" "X" 1) ∈
        FA.MatchEvents.getGoalRanking [FA.Fixtures.goalEvent] "WC" "2026" ∧
      (FA.MatchEvents.GoalRankRow.mk "A" "X" 1).goals =
        [FA.Fixtures.goalEvent].countP (fun e =>
          FA.MatchEvents.goalRelevant "WC" "2026" e &&
            (FA.MatchEvents.goalKey e == "A" ++ "__" ++ "X")) ∧
      FA.MatchEvents.goalRelevant "WC" "2026" FA.Fixtures.goalEvent = true ∧
      (∃ r ∈ FA.MatchEvents.getGoalRanking [FA.Fixtures.goalEvent] "WC" "2026",
        FA.MatchEvents.goalKey FA.Fixtures.goalEvent =
          r.player ++ "__" ++ r.team) :=
  ⟨by decide,
    (C2_goalRanking_amended [FA.Fixtures.goalEvent] "WC" "2026").1
      (FA.MatchEvents.GoalRankRow.mk "A" "X" 1) (by decide),
    by decide,
    (C2_goalRanking_amended [FA.Fixtures.goalEvent] "WC" "2026").2.2
      FA.Fixtures.goalEvent (by decide) (by decide)⟩

namespace FA.Callups

theorem jsLt_empty (s : String) : FA.jsLt s "" = false := by
  unfold FA.jsLt
  cases s.data <;> rfl

/-- The `groupMax` fold computes, per group key, the `strMax`-fold of the
normalized snapshot keys of the group's rows (rows with an empty trimmed
country skipped), over any starting map. -/
theorem gmFold_getD (rows : List CallupRow) :
    ∀ (gm0 : List (String × String)) (gk : String),
      ((FA.mget (rows.foldl gmStep gm0) gk).getD "") =
        ((rows.filter (fun r => FA.jsTrim r.country ≠ "" && gkOf r == gk)).map
          (fun r => toKeyDate r.snapshot_date)).foldl strMax
          ((FA.mget gm0 gk).getD "") := by
  induction rows with
  | nil => intro gm0 gk; rfl
  | cons r rows ih =>
    intro gm0 gk
    simp only [List.foldl_cons, List.filter_cons]
    by_cases hc : FA.jsTrim r.country = ""
    · have hstep : gmStep gm0 r = gm0 := by simp [gmStep, hc]
      have hcond : (FA.jsTrim r.country ≠ "" && (gkOf r == gk)) = false := by
        simp [hc]
      rw [hstep, hcond]
      simp only [Bool.false_eq_true, if_false]
      exact ih gm0 gk
    · by_cases hgk : gkOf r = gk
      · have hcond : (FA.jsTrim r.country ≠ "" && (gkOf r == gk)) = true := by
          simp [hc, hgk]
        rw [hcond]
        simp only [if_true, List.map_cons, List.foldl_cons]
        rw [ih]
        congr 1
        have hbase : (FA.mget (gmStep gm0 r) gk).getD "" =
            strMax ((FA.mget gm0 gk).getD "") (toKeyDate r.snapshot_date) := by
          unfold gmStep
          rw [if_neg hc]
          by_cases hdempty : toKeyDate r.snapshot_date = ""
          · simp [hgk, hdempty, strMax, jsLt_empty]
          · by_cases hlt : FA.jsLt ((FA.mget gm0 gk).getD "")
                (toKeyDate r.snapshot_date) = true
            · simp [hgk, hdempty, hlt, strMax, FA.mget_mset_self]
            · have hlt' : FA.jsLt ((FA.mget gm0 gk).getD "")
                  (toKeyDate r.snapshot_date) = false := by simpa using hlt
              simp [hgk, hdempty, hlt', strMax]
        exact hbase
      · have hcond : (FA.jsTrim r.country ≠ "" && (gkOf r == gk)) = false := by
          simp [hgk]
        rw [hcond]
        simp only [Bool.false_eq_true, if_false]
        rw [ih]
        congr 1
        unfold gmStep
        rw [if_neg hc]
        simp only []
        split
        · rw [FA.mget_mset_ne _ _ _ _ (fun hh => hgk hh.symm)]
        · rfl

end FA.Callups

/-- C1 amended: `loadCallups` deduplicates per (competition, edition,
country) GROUP, not per player: a row survives exactly when it passed the
country/name filter and either its group has no row with a non-empty
normalized `YYYYMMDD` snapshot key, or its own key equals the group's
lexicographic maximum.  All rows sharing the maximum survive, rows carrying
an older snapshot are dropped even when they are their player's latest, and
a row with an empty snapshot in a group with a dated sibling is dropped —
as in the spec's concrete example, proved as the second conjunct. -/
theorem C1_loadCallups_amended :
    (∀ (parsed : List FA.Callups.CallupRow) (r : FA.Callups.CallupRow),
      r ∈ FA.Callups.loadCallups parsed ↔
        r ∈ FA.Callups.keptRows parsed ∧
          (FA.Callups.maxSnap (FA.Callups.keptRows parsed) (FA.Callups.gkOf r) = "" ∨
            FA.Callups.toKeyDate r.snapshot_date =
              FA.Callups.maxSnap (FA.Callups.keptRows parsed) (FA.Callups.gkOf r))) ∧
    FA.Callups.loadCallups
        [FA.Fixtures.rowA, FA.Fixtures.rowA2, FA.Fixtures.rowEmptySnap] =
      [FA.Fixtures.rowA2] := by
  constructor
  · intro parsed r
    have hmax : ∀ gk, ((FA.mget ((FA.Callups.keptRows parsed).foldl
        FA.Callups.gmStep []) gk).getD "") =
        FA.Callups.maxSnap (FA.Callups.keptRows parsed) gk := by
      intro gk
      rw [FA.Callups.gmFold_getD]
      rfl
    constructor
    · intro hr
      have hr' := List.mem_filter.mp hr
      refine ⟨hr'.1, ?_⟩
      have hcond := hr'.2
      rw [hmax (FA.Callups.gkOf r)] at hcond
      by_cases hempty : FA.Callups.maxSnap (FA.Callups.keptRows parsed)
          (FA.Callups.gkOf r) = ""
      · exact Or.inl hempty
      · rw [if_pos (by simpa using hempty)] at hcond
        exact Or.inr (by simpa using hcond)
    · rintro ⟨hin, hor⟩
      refine List.mem_filter.mpr ⟨hin, ?_⟩
      rw [hmax (FA.Callups.gkOf r)]
      rcases hor with hempty | heq
      · rw [if_neg (by simpa using hempty)]
      · by_cases hempty : FA.Callups.maxSnap (FA.Callups.keptRows parsed)
            (FA.Callups.gkOf r) = ""
        · rw [if_neg (by simpa using hempty)]
        · rw [if_pos (by simpa using hempty)]
          simpa using heq
  · decide

/-- C1 counterexample: in the group (WC, 2026, Japan), player `A`'s only row
(snapshot `2025-10-01`, the largest — indeed only — snapshot of its
(competition, edition, country, player) grouping) is dropped because player
`B`'s `2025-11-01` row sets a larger group-wide maximum: `loadCallups` keeps
zero rows of `A`'s grouping, refuting "exactly one row per (competition,
edition, country, player) grouping". -/
theorem C1_loadCallups_counterexample :
    FA.Callups.loadCallups [FA.Fixtures.rowA, FA.Fixtures.rowB] =
        [FA.Fixtures.rowB] ∧
      [FA.Fixtures.rowA, FA.Fixtures.rowB].filter (fun r =>
        FA.Callups.playerGroup r == FA.Callups.playerGroup FA.Fixtures.rowA) =
        [FA.Fixtures.rowA] ∧
      FA.Callups.toKeyDate FA.Fixtures.rowA.snapshot_date = "20251001" := by
  refine ⟨by decide, by decide, by decide⟩

namespace FA.CsvSimple

theorem stripBom_append_quote (l : List Char) :
    stripBom (l ++ ['"']) = stripBom l ++ ['"'] := by
  cases l with
  | nil => rfl
  | cons c cs =>
    simp only [List.cons_append, stripBom]
    split <;> rfl

/-- Appending one closing quote to an input whose scan ends inside a quoted
field does not change the scanned rows: end-of-input already acts as an
implicit quote close. -/
theorem scanGo_append_quote :
    ∀ (input : List Char) (st : QState) (rows : List (List String))
      (row : List String) (cur : List Char),
      qstate st input = .inside →
      scanGo rows row cur st (input ++ ['"']) = scanGo rows row cur st input := by
  intro input
  induction input with
  | nil =>
    intro st rows row cur hq
    cases st <;> simp [qstate] at hq ⊢
    rfl
  | cons c cs ih =>
    intro st rows row cur hq
    simp only [List.cons_append]
    cases st with
    | inside =>
      by_cases h1 : c = '"'
      · subst h1
        simp only [scanGo, if_pos rfl]
        exact ih .afterQ rows row cur (by simpa [qstate] using hq)
      · simp only [scanGo, if_neg h1]
        exact ih .inside rows row (cur ++ [c]) (by simpa [qstate, h1] using hq)
    | afterQ =>
      have hq' : qstate (if c = '"' then QState.inside else QState.outside) cs =
          QState.inside := by
        by_cases h1 : c = '"' <;> simpa [qstate, h1] using hq
      by_cases h1 : c = '"'
      · subst h1
        simp only [scanGo, if_pos rfl]
        exact ih .inside rows row (cur ++ ['"']) (by simpa using hq')
      · by_cases h2 : c = ','
        · subst h2
          simp [scanGo]
          apply ih
          simpa using hq'
        · by_cases h3 : c = '\n'
          · subst h3
            simp [scanGo]
            split
            · apply ih
              simpa using hq'
            · apply ih
              simpa using hq'
          · simp [scanGo, h1, h2, h3]
            apply ih
            simpa [h1] using hq'
    | outside =>
      have hq' : qstate (if c = '"' then QState.inside else QState.outside) cs =
          QState.inside := by
        by_cases h1 : c = '"' <;> simpa [qstate, h1] using hq
      by_cases h1 : c = '"'
      · subst h1
        simp only [scanGo, if_pos rfl]
        exact ih .inside rows row cur (by simpa using hq')
      · by_cases h2 : c = ','
        · subst h2
          simp [scanGo]
          apply ih
          simpa using hq'
        · by_cases h3 : c = '\n'
          · subst h3
            simp [scanGo]
            split
            · apply ih
              simpa using hq'
            · apply ih
              simpa using hq'
          · simp [scanGo, h1, h2, h3]
            apply ih
            simpa [h1] using hq'

end FA.CsvSimple

namespace FA.CsvSimple

theorem mem_mset_cases (m : List (String × String)) (k0 v0 k v : String)
    (h : (k, v) ∈ FA.mset m k0 v0) : (k, v) ∈ m ∨ k = k0 := by
  induction m with
  | nil =>
    simp [FA.mset] at h
    exact Or.inr h.1
  | cons kv rest ih =>
    obtain ⟨k1, v1⟩ := kv
    by_cases h1 : k1 = k0
    · subst h1
      simp only [FA.mset, if_pos rfl] at h
      rcases List.mem_cons.mp h with h | h
      · cases h; exact Or.inr rfl
      · exact Or.inl (List.mem_cons_of_mem _ h)
    · simp only [FA.mset, if_neg h1] at h
      rcases List.mem_cons.mp h with h | h
      · exact Or.inl (by simp [h])
      · rcases ih h with h | h
        · exact Or.inl (List.mem_cons_of_mem _ h)
        · exact Or.inr h

theorem rowToObjGo_not_mem (hs : List String) :
    ∀ (fs : List String) (obj : List (String × String)) (k : String),
      k ∉ hs → FA.mget (rowToObjGo obj hs fs) k = FA.mget obj k := by
  induction hs with
  | nil => intro fs obj k _; rfl
  | cons h hs ih =>
    intro fs obj k hk
    have hk1 : k ≠ h := fun hh => hk (by simp [hh])
    have hk2 : k ∉ hs := fun hh => hk (List.mem_cons_of_mem _ hh)
    simp only [rowToObjGo]
    rw [ih fs.tail _ k hk2, FA.mget_mset_ne _ _ _ _ hk1]

theorem rowToObjGo_get (hs : List String) :
    ∀ (fs : List String) (obj : List (String × String)),
      hs.Nodup →
      ∀ (j : Nat) (hj : j < hs.length),
        FA.mget (rowToObjGo obj hs fs) (hs.get ⟨j, hj⟩) =
          some (FA.jsTrim (fs.getD j "")) := by
  induction hs with
  | nil => intro fs obj _ j hj; simp at hj
  | cons h hs ih =>
    intro fs obj hnd j hj
    have hnd' := List.nodup_cons.mp hnd
    cases j with
    | zero =>
      simp only [List.get, rowToObjGo]
      rw [rowToObjGo_not_mem hs fs.tail _ h hnd'.1, FA.mget_mset_self]
      have hfd : fs.getD 0 "" = fs.headD "" := by cases fs <;> rfl
      rw [hfd]
    | succ j =>
      have hj' : j < hs.length := by simpa using hj
      simp only [List.get, rowToObjGo]
      have hfd : fs.getD (j + 1) "" = fs.tail.getD j "" := by cases fs <;> rfl
      rw [hfd]
      exact ih fs.tail _ hnd'.2 j hj'

theorem rowToObjGo_keys (hs : List String) :
    ∀ (fs : List String) (obj : List (String × String)) (k v : String),
      (k, v) ∈ rowToObjGo obj hs fs → (k, v) ∈ obj ∨ k ∈ hs := by
  induction hs with
  | nil => intro fs obj k v h; exact Or.inl h
  | cons h hs ih =>
    intro fs obj k v hm
    simp only [rowToObjGo] at hm
    rcases ih fs.tail _ k v hm with hin | hin
    · rcases mem_mset_cases obj h (FA.jsTrim (fs.headD "")) k v hin with hin | hin
      · exact Or.inl hin
      · exact Or.inr (by simp [hin])
    · exact Or.inr (List.mem_cons_of_mem _ hin)

end FA.CsvSimple

/-- C9: `parseCsv` is a total function (the embedding terminates on every
input by construction); an input whose scan ends inside an unterminated
quoted field parses exactly as if the quote were closed at end of input —
and concretely the accumulated content becomes the final field of the final
row; a data row shorter than the header yields the empty string for each
missing trailing field, and fields beyond the header arity are dropped
(every key of a row object is a header name). -/
theorem C9_parseCsv_tolerant :
    (∀ s : String,
      FA.CsvSimple.qstate .outside (FA.CsvSimple.stripBom s.data) = .inside →
      FA.CsvSimple.parseCsv (s ++ "\"") = FA.CsvSimple.parseCsv s) ∧
    (∀ (header fields : List String), header.Nodup →
      ∀ (j : Nat) (hj : j < header.length),
        FA.mget (FA.CsvSimple.rowToObj header fields) (header.get ⟨j, hj⟩) =
          some (FA.jsTrim (fields.getD j ""))) ∧
    (∀ (header fields : List String) (k v : String),
      (k, v) ∈ FA.CsvSimple.rowToObj header fields → k ∈ header) ∧
    FA.CsvSimple.parseCsv "a,b\nc,\"unter" = [[("a", "c"), ("b", "unter")]] := by
  refine ⟨?_, ?_, ?_, by decide⟩
  · intro s hq
    have hdata : (s ++ "\"").data = s.data ++ ['"'] := rfl
    unfold FA.CsvSimple.parseCsv FA.CsvSimple.parseCsvRaw
    rw [hdata, FA.CsvSimple.stripBom_append_quote,
      FA.CsvSimple.scanGo_append_quote (FA.CsvSimple.stripBom s.data)
        .outside [] [] [] hq]
  · intro header fields hnd j hj
    exact FA.CsvSimple.rowToObjGo_get header fields [] hnd j hj
  · intro header fields k v hm
    rcases FA.CsvSimple.rowToObjGo_keys header fields [] k v hm with h | h
    · simp at h
    · exact h

/-- C9 witness: the unterminated-quote input `x,"ab` and a one-field row
under a two-name header. -/
theorem C9_parseCsv_tolerant_witness :
    FA.CsvSimple.qstate .outside (FA.CsvSimple.stripBom "x,\"ab".data) = .inside ∧
      FA.CsvSimple.parseCsv ("x,\"ab" ++ "\"") = FA.CsvSimple.parseCsv "x,\"ab" ∧
      (["h1", "h2"] : List String).Nodup ∧
      FA.mget (FA.CsvSimple.rowToObj ["h1", "h2"] ["v"])
          (["h1", "h2"].get ⟨1, by decide⟩) =
        some (FA.jsTrim ((["v"] : List String).getD 1 "")) :=
  ⟨by decide,
    C9_parseCsv_tolerant.1 "x,\"ab" (by decide),
    by decide,
    C9_parseCsv_tolerant.2.1 ["h1", "h2"] ["v"] (by decide) 1 (by decide)⟩
